import Mathlib

/-!
Verification of the session-lifecycle and cross-modality context-bridging core
of the contextual-agent SDK.

The embedding models, from the TypeScript source:
* `SessionStateManager` (src/core — session CRUD, bounded memory bank,
  entity/topic extraction, modality-switch tracking, context bridging);
* `ContextBridge` (stateless text-rewriting pipelines between voice and text);
* the in-memory storage provider semantics (`MemoryStorageProvider` in
  src/storage/StorageFactory.ts): `getSession` returns a clone of the
  stored session whose `memoryBank` is a fresh array built with `.map`,
  and `updateSession` re-stores the given state.  Store-level operations
  therefore use value semantics: the in-place mutations the manager
  performs on a fetched session reach the store only through an explicit
  `storage.updateSession` call (see `cloneSession` below for the aliasing
  analysis of the remaining shared arrays).

Strings are modelled as `List Char` (wrapped in `String` in the data model);
JavaScript `Date` values as natural-number millisecond timestamps; the
ambient clock (`new Date()`) as an explicit `now : Nat` argument; and
`Math.random()` as an explicit stream `rng : Nat → Nat` of draws (the k-th
call reads `rng k`).  JS number arithmetic on message importance is modelled
over `ℚ`: the eight reachable IEEE-754 double values of
`calculateImportance` (0.5 / +0.3 / +0.2 / −0.3, clamped) were computed
exactly and have the same equalities and strict order as the exact rational
results, so every comparison the code performs coincides with the rational
model.  JS `Array.prototype.sort` (stable since ES2019) is modelled with the
stable `List.insertionSort`.
-/

/-- JS `String.prototype.toLowerCase` restricted to ASCII (all inputs the
analysed code compares case-insensitively are ASCII patterns). -/
def jsToLower (c : Char) : Char :=
  if 65 ≤ c.toNat ∧ c.toNat ≤ 90 then Char.ofNat (c.toNat + 32) else c

/-- JS `String.prototype.toUpperCase` restricted to ASCII. -/
def jsToUpper (c : Char) : Char :=
  if 97 ≤ c.toNat ∧ c.toNat ≤ 122 then Char.ofNat (c.toNat - 32) else c

/-- Lower-case every character (ASCII). -/
def lowerList (s : List Char) : List Char := s.map jsToLower

/-- Case-insensitive occurrence of a (lower-case) pattern as a contiguous
substring, the property JS `String.prototype.includes` checks after
lower-casing both sides. -/
def occursCI (pat : String) (s : List Char) : Prop :=
  pat.toList <:+: lowerList s

instance (pat : String) (s : List Char) : Decidable (occursCI pat s) :=
  inferInstanceAs (Decidable (_ <:+: _))

/-- Case-sensitive substring occurrence (JS `includes` with no lowering). -/
def occursIn (pat : String) (s : String) : Prop :=
  pat.toList <:+: s.toList

instance (pat s : String) : Decidable (occursIn pat s) :=
  inferInstanceAs (Decidable (_ <:+: _))

/-- Regex `\s` (ASCII range: space, tab, newline, carriage return, form
feed, vertical tab). -/
def isWsChar (c : Char) : Bool :=
  decide (c = ' ' ∨ c = '\t' ∨ c = '\n' ∨ c = '\r' ∨ c = '\x0b' ∨ c = '\x0c')

/-- Regex `\w`, i.e. `[A-Za-z0-9_]`. -/
def isWordChar (c : Char) : Bool :=
  decide (('a' ≤ c ∧ c ≤ 'z') ∨ ('A' ≤ c ∧ c ≤ 'Z') ∨ ('0' ≤ c ∧ c ≤ '9') ∨ c = '_')

/-- ASCII digit, regex `\d`. -/
def isDigitChar (c : Char) : Bool := decide ('0' ≤ c ∧ c ≤ '9')

/-- Sentence-terminator class `[.!?]`. -/
def isTermChar (c : Char) : Bool := decide (c = '.' ∨ c = '!' ∨ c = '?')

/-- Case-insensitive literal match of a (lower-case) pattern at the head of
a suffix. -/
def matchCI : List Char → List Char → Bool
  | [], _ => true
  | _ :: _, [] => false
  | p :: ps, c :: cs => (p == jsToLower c) && matchCI ps cs

/-- Generic left-to-right single-pass `String.prototype.replace` scanner with
a global regex: at each position of the input, `find` reports an optional
(replacement, matched-length) for the suffix starting there; a match emits
the replacement and resumes after the matched text, otherwise the character
is kept.  The first argument counts characters still to skip inside the
current match (every matcher below consumes at least one character). -/
def scanRepl (find : List Char → Option (List Char × Nat)) :
    Nat → List Char → List Char
  | _, [] => []
  | k + 1, _ :: r => scanRepl find k r
  | 0, c :: r =>
    match find (c :: r) with
    | some (repl, n) => repl ++ scanRepl find (n - 1) r
    | none => c :: scanRepl find 0 r

/-- Modality of a message or session: `'voice' | 'text'`. -/
inductive Modality where
  | voice
  | text
deriving DecidableEq, Repr

/-- Rendering used when a modality value is interpolated into a string. -/
def Modality.str : Modality → String
  | .voice => "voice"
  | .text => "text"

/-- Role of a message: `'user' | 'assistant' | 'system'`. -/
inductive MessageRole where
  | user
  | assistant
  | system
deriving DecidableEq, Repr

/-- The `Message` interface (metadata fields not read by the analysed code
are omitted). -/
structure Message where
  id : String
  role : MessageRole
  content : String
  modality : Modality
  timestamp : Nat
deriving DecidableEq, Repr

/-- The `MemoryItem` interface. -/
structure MemoryItem where
  id : String
  content : String
  importance : ℚ
  timestamp : Nat
  tags : List String
  modality : Modality
deriving DecidableEq, Repr

/-- The `ExtractedEntity` interface. -/
structure ExtractedEntity where
  name : String
  type : String
  value : String
  confidence : ℚ
  source : Modality
deriving DecidableEq, Repr

/-- The free-form `data` record attached to a flow state, with string
values. -/
abbrev FlowData := List (String × String)

/-- The `FlowState` interface. -/
structure FlowState where
  step : String
  modality : Modality
  timestamp : Nat
  data : FlowData
deriving DecidableEq

/-- The `SessionMetadata` interface (optional unused fields omitted). -/
structure SessionMetadata where
  modalitySwitches : Nat
  averageResponseTime : ℚ
deriving DecidableEq

/-- The `ConversationContext` interface. -/
structure ConversationContext where
  topic : Option String
  intent : Option String
  mood : Option String
  entities : List ExtractedEntity
  conversationFlow : List FlowState
  memoryBank : List MemoryItem
deriving DecidableEq

/-- The `SessionState` interface. -/
structure SessionState where
  sessionId : String
  userId : Option String
  startTime : Nat
  lastActivity : Nat
  currentModality : Modality
  totalMessages : Nat
  context : ConversationContext
  metadata : SessionMetadata
deriving DecidableEq

/-- Character class `[A-Za-z0-9._%+-]` (local part of the email regex in
`SessionStateManager.extractEntities`). -/
def isEmailLocalChar (c : Char) : Bool :=
  decide (('A' ≤ c ∧ c ≤ 'Z') ∨ ('a' ≤ c ∧ c ≤ 'z') ∨ ('0' ≤ c ∧ c ≤ '9') ∨
    c = '.' ∨ c = '_' ∨ c = '%' ∨ c = '+' ∨ c = '-')

/-- Character class `[A-Za-z0-9.-]` (domain part of the email regex). -/
def isEmailDomainChar (c : Char) : Bool :=
  decide (('A' ≤ c ∧ c ≤ 'Z') ∨ ('a' ≤ c ∧ c ≤ 'z') ∨ ('0' ≤ c ∧ c ≤ '9') ∨
    c = '.' ∨ c = '-')

/-- Character class `[A-Z|a-z]` of the email regex: note it literally
contains `'|'`. -/
def isTldChar (c : Char) : Bool :=
  decide (('A' ≤ c ∧ c ≤ 'Z') ∨ c = '|' ∨ ('a' ≤ c ∧ c ≤ 'z'))

/-- Word-character test lifted to an optional character (`none` stands for
a string edge, which is never a word character). -/
def wordOpt : Option Char → Bool
  | none => false
  | some c => isWordChar c

/-- Backtracking match of the email regex
`\b[A-Za-z0-9._%+-]+@[A-Za-z0-9.-]+\.[A-Z|a-z]{2,}\b` at the start of the
suffix `s`, where `prev` is the character immediately before `s` in the full
string (for the `\b` assertions).  Greedy `+`/`{2,}` with right-to-left
backtracking, exactly the JS engine's search order; the local-part run needs
no backtracking because `'@'` is outside its class.  Returns the matched
length. -/
def matchEmailAt (prev : Option Char) (s : List Char) : Option Nat :=
  match s with
  | [] => none
  | c :: _ =>
    if isWordChar c == wordOpt prev then none
    else
      let lmax := (s.takeWhile isEmailLocalChar).length
      if lmax = 0 then none
      else
        match s.drop lmax with
        | '@' :: rest2 =>
          let dmax := (rest2.takeWhile isEmailDomainChar).length
          (List.range dmax).findSome? fun j =>
            let k := dmax - j
            match rest2.drop k with
            | '.' :: after2 =>
              let tmax := (after2.takeWhile isTldChar).length
              if tmax < 2 then none
              else
                (List.range (tmax - 1)).findSome? fun i =>
                  let t := tmax - i
                  match after2[t - 1]? with
                  | none => none
                  | some lc =>
                    if isWordChar lc == wordOpt after2[t]? then none
                    else some (lmax + 1 + k + 1 + t)
            | _ => none
        | _ => none

/-- Global scan of `content.match(emailRegex)`: leftmost matches collected
left to right, resuming after each match.  First argument: characters still
to skip inside the current match; second: the previous character. -/
def emailScanGo : Nat → Option Char → List Char → List (List Char)
  | _, _, [] => []
  | k + 1, _, c :: r => emailScanGo k (some c) r
  | 0, prev, c :: r =>
    match matchEmailAt prev (c :: r) with
    | some n => (List.take n (c :: r)) :: emailScanGo (n - 1) (some c) r
    | none => emailScanGo 0 (some c) r

namespace SessionStateManager

/-- Email matches of `content` (the `content.match(emailRegex)` list in
`extractEntities`). -/
def extractEmails (content : String) : List String :=
  (emailScanGo 0 none content.toList).map List.asString

/-- The private `extractEntities` method: email detection only; every match
becomes an entity of type `"email"` with confidence 0.9 and source
`'text'`. -/
def extractEntities (content : String) : List ExtractedEntity :=
  (extractEmails content).map fun email =>
    { name := email, type := "email", value := email,
      confidence := 0.9, source := .text }

/-- The private `detectTopic` method: keyword → topic mapping on the
lower-cased content. -/
def detectTopic (content : String) : String :=
  let lc := lowerList content.toList
  if "order".toList <:+: lc ∨ "shipping".toList <:+: lc then "order_management"
  else if "account".toList <:+: lc ∨ "profile".toList <:+: lc then "account_management"
  else "general"

/-- The private `extractTags` method (case-sensitive `includes` checks). -/
def extractTags (content : String) : List String :=
  (if occursIn "question" content ∨ occursIn "?" content then ["question"] else []) ++
  (if occursIn "help" content ∨ occursIn "support" content then ["help"] else [])

/-- The private `calculateImportance` method: base 0.5, +0.3 for a question
mark, +0.2 for length over 100, −0.3 for a system message, clamped to
[0, 1].  Modelled over ℚ; the reachable IEEE-754 values have identical
equalities and order (see the file header). -/
def calculateImportance (message : Message) : ℚ :=
  let score : ℚ := 0.5
  let score := if occursIn "?" message.content then score + 0.3 else score
  let score := if message.content.length > 100 then score + 0.2 else score
  let score := if message.role = .system then score - 0.3 else score
  max 0 (min 1 score)

/-- The memory item built for a message in `addToMemoryBank`. -/
def mkMemoryItem (message : Message) : MemoryItem :=
  { id := message.id, content := message.content,
    importance := calculateImportance message, timestamp := message.timestamp,
    tags := extractTags message.content, modality := message.modality }

/-- Ordering used by the eviction sort in `addToMemoryBank`:
`(a, b) => b.importance - a.importance || b.timestamp.getTime() - a.timestamp.getTime()`,
i.e. importance descending, ties by most-recent timestamp. -/
def memRel (a b : MemoryItem) : Prop :=
  b.importance < a.importance ∨
    (b.importance = a.importance ∧ b.timestamp ≤ a.timestamp)

instance : DecidableRel memRel := fun _ _ =>
  inferInstanceAs (Decidable (_ ∨ _))

instance : IsTotal MemoryItem memRel where
  total a b := by
    unfold memRel
    rcases lt_trichotomy a.importance b.importance with h | h | h
    · exact Or.inr (Or.inl h)
    · rcases le_total b.timestamp a.timestamp with ht | ht
      · exact Or.inl (Or.inr ⟨h.symm, ht⟩)
      · exact Or.inr (Or.inr ⟨h, ht⟩)
    · exact Or.inl (Or.inl h)

instance : IsTrans MemoryItem memRel where
  trans a b c hab hbc := by
    unfold memRel at *
    rcases hab with h1 | ⟨h1e, h1t⟩ <;> rcases hbc with h2 | ⟨h2e, h2t⟩
    · exact Or.inl (h2.trans h1)
    · exact Or.inl (h2e ▸ h1)
    · exact Or.inl (h1e ▸ h2)
    · exact Or.inr ⟨h2e.trans h1e, h2t.trans h1t⟩

/-- Ordering used by the recency sorts (`getConversationSummary`,
`getRecentContext`, the bridge methods):
`(a, b) => b.timestamp.getTime() - a.timestamp.getTime()`. -/
def tsRel (a b : MemoryItem) : Prop := b.timestamp ≤ a.timestamp

instance : DecidableRel tsRel := fun _ _ =>
  inferInstanceAs (Decidable (_ ≤ _))

instance : IsTotal MemoryItem tsRel where
  total a b := le_total b.timestamp a.timestamp

instance : IsTrans MemoryItem tsRel where
  trans _ _ _ hab hbc := le_trans hbc hab

/-- The private `addToMemoryBank` method: push the new item; when the bank
exceeds 50 items, re-sort by `memRel` and keep the first 50. -/
def addToMemoryBank (session : SessionState) (message : Message) : SessionState :=
  let bank := session.context.memoryBank ++ [mkMemoryItem message]
  let bank := if bank.length > 50 then (List.insertionSort memRel bank).take 50 else bank
  { session with context := { session.context with memoryBank := bank } }

/-- JS falsiness of the optional `context.topic` string: absent or empty. -/
def topicFalsy : Option String → Bool
  | none => true
  | some t => t == ""

/-- The private `updateContextFromMessage` method: merge only new
`(name, type)` entity pairs (the `source` field is overridden with the
message modality) and assign the topic only when it is still unset. -/
def updateContextFromMessage (session : SessionState) (message : Message) :
    SessionState :=
  let entities := extractEntities message.content
  let ents := entities.foldl (fun cur e =>
    if cur.any (fun x => decide (x.name = e.name ∧ x.type = e.type)) then cur
    else cur ++ [{ e with source := message.modality }]) session.context.entities
  let topic :=
    if topicFalsy session.context.topic then some (detectTopic message.content)
    else session.context.topic
  { session with context := { session.context with entities := ents, topic := topic } }

/-- The private `addFlowState` method: append a flow entry and keep only the
last 20 (`slice(-20)`). -/
def addFlowState (session : SessionState) (step : String) (modality : Modality)
    (data : FlowData) (now : Nat) : SessionState :=
  let flow := session.context.conversationFlow ++
    [{ step := step, modality := modality, timestamp := now, data := data }]
  let flow := if flow.length > 20 then flow.drop (flow.length - 20) else flow
  { session with context := { session.context with conversationFlow := flow } }

/-- The state mutations `updateSession` performs on the fetched session
object: modality-switch tracking, counters, memory insertion, context
update.  `now` models the `new Date()` calls. -/
def updateSessionState (session : SessionState) (message : Message)
    (modality : Modality) (now : Nat) : SessionState :=
  let session :=
    if session.currentModality ≠ modality then
      addFlowState
        { session with metadata :=
            { session.metadata with
                modalitySwitches := session.metadata.modalitySwitches + 1 } }
        "modality_switch" modality
        [("from", session.currentModality.str), ("to", modality.str)] now
    else session
  let session :=
    { session with
        currentModality := modality
        totalMessages := session.totalMessages + 1
        lastActivity := now }
  let session := addToMemoryBank session message
  updateContextFromMessage session message

/-- The private `getRecentContext` method.  The in-place
`memoryBank.sort(...)` is modelled by also returning the session object
after the call, whose bank is now in descending-timestamp order. -/
def getRecentContext (session : SessionState) (count : Nat) :
    String × SessionState :=
  let sorted := List.insertionSort tsRel session.context.memoryBank
  (String.intercalate "\n" ((sorted.take count).map (·.content)),
   { session with context := { session.context with memoryBank := sorted } })

/-- The private `bridgeVoiceToText` method.  `filter` copies the array, so
the sort leaves the session's bank untouched on the main path; the empty
fallback delegates to `getRecentContext`, whose in-place sort does mutate
the session object — hence the session component of the result. -/
def bridgeVoiceToText (session : SessionState) : String × SessionState :=
  let recentVoiceMemories :=
    (List.insertionSort tsRel
      (session.context.memoryBank.filter (fun m => m.modality == .voice))).take 3
  if recentVoiceMemories.length = 0 then getRecentContext session 3
  else
    ("Previous voice conversation context:\n" ++
      String.join (recentVoiceMemories.enum.map
        (fun p => toString (p.1 + 1) ++ ". " ++ p.2.content ++ "\n")) ++
      "\nNow switching to text mode - please provide structured responses.",
     session)

/-- The private `bridgeTextToVoice` method (same conventions as
`bridgeVoiceToText`): 100-character truncation with ellipsis, joined with
". ". -/
def bridgeTextToVoice (session : SessionState) : String × SessionState :=
  let recentTextMemories :=
    (List.insertionSort tsRel
      (session.context.memoryBank.filter (fun m => m.modality == .text))).take 3
  if recentTextMemories.length = 0 then getRecentContext session 3
  else
    let topics := String.intercalate ". " (recentTextMemories.map fun m =>
      if m.content.length > 100 then (m.content.toList.take 100).asString ++ "..."
      else m.content)
    ("We were just discussing: " ++ topics ++
      ". Now switching to voice conversation - please speak naturally.",
     session)

/-- Body of `getConversationSummary` on the fetched session object: optional
topic line plus the 5 most recent memory items.  The in-place recency sort
is reflected in the returned session object. -/
def summaryOfSession (session : SessionState) : String × SessionState :=
  let sorted := List.insertionSort tsRel session.context.memoryBank
  let recentMemories := sorted.take 5
  let summary :=
    match session.context.topic with
    | some t => if t = "" then "" else "Topic: " ++ t ++ "\n"
    | none => ""
  let summary := summary ++
    (if recentMemories.length > 0 then
      "Recent conversation:\n" ++
        String.join (recentMemories.map fun m =>
          "- " ++ m.content ++ " (" ++ m.modality.str ++ ")\n")
     else "")
  (summary, { session with context := { session.context with memoryBank := sorted } })

/-- The `createEmptyContext` helper. -/
def createEmptyContext : ConversationContext :=
  { topic := none, intent := none, mood := none, entities := [],
    conversationFlow := [], memoryBank := [] }

/-- The `createEmptyMetadata` helper. -/
def createEmptyMetadata : SessionMetadata :=
  { modalitySwitches := 0, averageResponseTime := 0 }

/-- The fresh session state `createSession` constructs (modality defaults to
text). -/
def createSessionState (sessionId : String) (userId : Option String)
    (now : Nat) : SessionState :=
  { sessionId := sessionId, userId := userId, startTime := now,
    lastActivity := now, currentModality := .text, totalMessages := 0,
    context := createEmptyContext, metadata := createEmptyMetadata }

/-- The storage collaborator: the sessions map of `MemoryStorageProvider`. -/
abbrev Store : Type := String → Option SessionState

/-- Store update (`sessions.set`). -/
def setStore (store : Store) (sessionId : String) (s : SessionState) : Store :=
  fun j => if j = sessionId then some s else store j

/-- The `cloneSession` helper of `MemoryStorageProvider`: a clone with
fresh `Date` objects and a fresh `memoryBank` array (identity under value
semantics, kept explicit to document where aliasing is cut).  The
`entities`/`conversationFlow` arrays are shared with the stored object, but
every code path that pushes into them ends in a `storage.updateSession`
call, so the store-level semantics below are unaffected; the only
unpersisted in-place mutation — the recency sort of the read-only queries —
acts on the freshly copied `memoryBank` array. -/
def cloneSession (session : SessionState) : SessionState :=
  { session with
      startTime := session.startTime, lastActivity := session.lastActivity,
      context := { session.context with
        memoryBank := session.context.memoryBank.map
          fun m => { m with timestamp := m.timestamp } } }

/-- Public `createSession`: get-before-create, defaulting to a fresh
text-modality session. -/
def createSession (store : Store) (sessionId : String) (userId : Option String)
    (now : Nat) : SessionState × Store :=
  match store sessionId with
  | some existing => (cloneSession existing, store)
  | none =>
    let session := createSessionState sessionId userId now
    (session, setStore store sessionId session)

/-- Public `updateSession`: NotFound when the store has no session,
otherwise mutate the fetched clone and persist it. -/
def updateSession (store : Store) (sessionId : String) (message : Message)
    (modality : Modality) (now : Nat) : Except String SessionState × Store :=
  match store sessionId with
  | none => (.error ("Session " ++ sessionId ++ " not found"), store)
  | some s0 =>
    let session := updateSessionState (cloneSession s0) message modality now
    (.ok session, setStore store sessionId session)

/-- Public `bridgeContextForModality`: same-modality requests return the
recent context with no store write; cross-modality requests bridge, append a
`"context_bridged"` flow entry and persist. -/
def bridgeContextForModality (store : Store) (sessionId : String)
    (targetModality : Modality) (now : Nat) : Except String String × Store :=
  match store sessionId with
  | none => (.error ("Session " ++ sessionId ++ " not found"), store)
  | some s0 =>
    let session := cloneSession s0
    let currentModality := session.currentModality
    if currentModality = targetModality then
      (.ok (getRecentContext session 3).1, store)
    else
      let res :=
        if currentModality = .voice ∧ targetModality = .text then
          bridgeVoiceToText session
        else if currentModality = .text ∧ targetModality = .voice then
          bridgeTextToVoice session
        else ("", session)
      let session := addFlowState res.2 "context_bridged" targetModality
        [("from", currentModality.str), ("to", targetModality.str),
         ("bridgeType", currentModality.str ++ "_to_" ++ targetModality.str)] now
      (.ok res.1, setStore store sessionId session)

/-- Public `getConversationSummary`: empty string when the session is
absent; never writes to the store (the in-place sort happens on the clone
`getSession` returned). -/
def getConversationSummary (store : Store) (sessionId : String) :
    String × Store :=
  match store sessionId with
  | none => ("", store)
  | some s0 => ((summaryOfSession (cloneSession s0)).1, store)

end SessionStateManager

namespace ContextBridge

/-- JS `split` on a regex matching runs of separator characters (used for
`split(/[.!?]+/)` and `split(/\W+/)`): pieces between maximal separator
runs, with empty pieces at the edges exactly as in JS. -/
def splitRunsGo (isSep : Char → Bool) (inSep : Bool) (acc : List Char) :
    List Char → List (List Char)
  | [] => [acc.reverse]
  | c :: r =>
    if isSep c then
      if inSep then splitRunsGo isSep true [] r
      else acc.reverse :: splitRunsGo isSep true [] r
    else splitRunsGo isSep false (c :: acc) r

/-- Entry point of the run splitter. -/
def splitRuns (isSep : Char → Bool) (s : List Char) : List (List Char) :=
  splitRunsGo isSep false [] s

/-- JS `String.prototype.split` with a single-character separator. -/
def splitOnCharGo (sep : Char) (acc : List Char) :
    List Char → List (List Char)
  | [] => [acc.reverse]
  | c :: r =>
    if c = sep then acc.reverse :: splitOnCharGo sep [] r
    else splitOnCharGo sep (c :: acc) r

/-- The stop-word set of `isStopWord`. -/
def stopWords : List (List Char) :=
  (["the", "be", "to", "of", "and", "a", "in", "that", "have", "this",
    "from", "with", "they", "would", "what", "when", "there", "about"]).map
    String.toList

/-- The private `isStopWord` method. -/
def isStopWord (word : List Char) : Bool := stopWords.contains word

/-- The private `extractKeywords` method: lower-case, split on non-word
runs, keep words longer than 3 that are not stop words. -/
def extractKeywords (text : List Char) : List (List Char) :=
  ((splitRuns (fun c => !isWordChar c) (lowerList text)).filter
    (fun w => w.length > 3)).filter (fun w => !isStopWord w)

/-- The private `isNewTopic` method: a sentence starts a new topic when its
keywords share nothing with the running topic heading's keywords. -/
def isNewTopic (keywords : List (List Char)) (currentTopic : List Char) : Bool :=
  if currentTopic.isEmpty then true
  else
    let topicKeywords := extractKeywords currentTopic
    (keywords.filter (fun k => topicKeywords.contains k)).length == 0

/-- JS `w.charAt(0).toUpperCase() + w.slice(1)`. -/
def capitalizeWord : List Char → List Char
  | [] => []
  | c :: r => jsToUpper c :: r

/-- The private `generateTopicHeading` method: first three keywords,
capitalized, space-joined. -/
def generateTopicHeading (keywords : List (List Char)) : List Char :=
  List.intercalate " ".toList ((keywords.take 3).map capitalizeWord)

/-- One heading/content block produced by `detectTopics`. -/
structure TopicBlock where
  heading : List Char
  content : List Char
deriving DecidableEq

/-- Loop body of `detectTopics` (state: emitted topics, running topic
heading, sentences of the running topic). -/
def detectTopicsStep (st : List TopicBlock × List Char × List (List Char))
    (sentence : List Char) : List TopicBlock × List Char × List (List Char) :=
  let keywords := extractKeywords sentence
  if isNewTopic keywords st.2.1 then
    let topics :=
      if st.2.1.isEmpty then st.1
      else st.1 ++ [⟨st.2.1, List.intercalate ". ".toList st.2.2⟩]
    (topics, generateTopicHeading keywords, [sentence])
  else (st.1, st.2.1, st.2.2 ++ [sentence])

/-- The private `detectTopics` method: sentence-level keyword-overlap
segmentation. -/
def detectTopics (text : List Char) : List TopicBlock :=
  let sentences := splitRuns isTermChar text
  let st := sentences.foldl detectTopicsStep ([], [], [])
  if st.2.1.isEmpty then st.1
  else st.1 ++ [⟨st.2.1, List.intercalate ". ".toList st.2.2⟩]

/-- Matcher of the `formatLists` regex `([.!?]+)\s*(\d+\.|[-•])` with its
replacement `$1\n\n$2` (no backtracking arises: the three runs have
pairwise disjoint character classes). -/
def listMarkerFind (s : List Char) : Option (List Char × Nat) :=
  let terms := s.takeWhile isTermChar
  if terms.length = 0 then none
  else
    let rest1 := s.drop terms.length
    let ws := rest1.takeWhile isWsChar
    let rest2 := rest1.drop ws.length
    let marker : Option (List Char) :=
      match rest2 with
      | [] => none
      | c :: _ =>
        if c = '-' ∨ c = '•' then some [c]
        else
          let ds := rest2.takeWhile isDigitChar
          if ds.length = 0 then none
          else
            match rest2.drop ds.length with
            | '.' :: _ => some (ds ++ ['.'])
            | _ => none
    match marker with
    | none => none
    | some m => some (terms ++ "\n\n".toList ++ m, terms.length + ws.length + m.length)

/-- The private `formatLists` method. -/
def formatLists (text : List Char) : List Char := scanRepl listMarkerFind 0 text

/-- Matcher for one keyword of `highlightKeyPoints`: regex
`(keyword)` with flags `gi`, replacement `**$1**` ($1 is the matched text
with its original case). -/
def wrapFind (kw : List Char) (s : List Char) : Option (List Char × Nat) :=
  if matchCI kw s then
    some ("**".toList ++ s.take kw.length ++ "**".toList, kw.length)
  else none

/-- Keyword list of `highlightKeyPoints`, applied as successive global
replaces in this order. -/
def highlightKeywords : List String :=
  ["important", "key", "must", "critical", "essential"]

/-- The private `highlightKeyPoints` method. -/
def highlightKeyPoints (text : List Char) : List Char :=
  highlightKeywords.foldl (fun t kw => scanRepl (wrapFind kw.toList) 0 t) text

/-- Matcher of the filler regex `um|uh|like|you know` (flags `gi`),
replacement empty. -/
def fillerFind (s : List Char) : Option (List Char × Nat) :=
  if matchCI "um".toList s then some ([], 2)
  else if matchCI "uh".toList s then some ([], 2)
  else if matchCI "like".toList s then some ([], 4)
  else if matchCI "you know".toList s then some ([], 8)
  else none

/-- The filler-removal stage of `voiceToTextBridge`:
`context.replace(/um|uh|like|you know/gi, '')`. -/
def stripFillers (text : List Char) : List Char := scanRepl fillerFind 0 text

/-- The whitespace collapse `replace(/(\s)+/g, ' ')`: every maximal
whitespace run becomes one space (the flag says whether the previous
character was inside a run). -/
def collapseWsGo (prevWs : Bool) : List Char → List Char
  | [] => []
  | c :: r =>
    if isWsChar c then
      if prevWs then collapseWsGo true r else ' ' :: collapseWsGo true r
    else c :: collapseWsGo false r

/-- Entry point of the whitespace collapse. -/
def collapseWs (text : List Char) : List Char := collapseWsGo false text

/-- JS `String.prototype.trim`. -/
def trimWs (text : List Char) : List Char :=
  ((text.dropWhile isWsChar).reverse.dropWhile isWsChar).reverse

/-- The `voiceToTextBridge` pipeline: strip fillers, collapse whitespace,
trim, restructure into topic blocks when more than one topic is detected,
reflow list markers, emphasise key words. -/
def voiceToTextBridge (context : List Char) : List Char :=
  let bridged := trimWs (collapseWs (stripFillers context))
  let topics := detectTopics bridged
  let bridged :=
    if topics.length > 1 then
      List.intercalate "\n\n".toList
        (topics.map fun t => t.heading ++ ":\n".toList ++ t.content)
    else bridged
  highlightKeyPoints (formatLists bridged)

/-- Matcher of `replace(/therefore|however|moreover/gi, 'so')`. -/
def conn1Find (s : List Char) : Option (List Char × Nat) :=
  if matchCI "therefore".toList s then some ("so".toList, 9)
  else if matchCI "however".toList s then some ("so".toList, 7)
  else if matchCI "moreover".toList s then some ("so".toList, 8)
  else none

/-- Matcher of `replace(/additionally/gi, 'also')`. -/
def conn2Find (s : List Char) : Option (List Char × Nat) :=
  if matchCI "additionally".toList s then some ("also".toList, 12) else none

/-- Matcher of `replace(/regarding/gi, 'about')`. -/
def conn3Find (s : List Char) : Option (List Char × Nat) :=
  if matchCI "regarding".toList s then some ("about".toList, 9) else none

/-- Separator match of the sentence-splitting regex
`,|;|\band\b|\bor\b` (case-sensitive), `prev` being the character before
the current position for the `\b` assertions. -/
def phraseSepAt (prev : Option Char) : List Char → Option Nat
  | ',' :: _ => some 1
  | ';' :: _ => some 1
  | 'a' :: 'n' :: 'd' :: rest =>
    if wordOpt prev = false && wordOpt rest.head? = false then some 3 else none
  | 'o' :: 'r' :: rest =>
    if wordOpt prev = false && wordOpt rest.head? = false then some 2 else none
  | _ => none

/-- JS `sentence.split(/,|;|\band\b|\bor\b/)` (first argument: characters
still to skip in the current separator; second: previous character). -/
def splitSepsGo : Nat → Option Char → List Char → List Char → List (List Char)
  | _, _, acc, [] => [acc.reverse]
  | k + 1, _, acc, c :: r => splitSepsGo k (some c) acc r
  | 0, prev, acc, c :: r =>
    match phraseSepAt prev (c :: r) with
    | some n => acc.reverse :: splitSepsGo (n - 1) (some c) [] r
    | none => splitSepsGo 0 (some c) (c :: acc) r

/-- Entry point of the phrase splitter. -/
def splitPhrases (s : List Char) : List (List Char) := splitSepsGo 0 none [] s

/-- Matcher of `replace(/([^.!?]+[.!?]+)/g, sentence => ...)`: sentences
over 100 characters are split on comma/semicolon/and/or and re-joined with
".\n". -/
def sentenceFind (s : List Char) : Option (List Char × Nat) :=
  let body := s.takeWhile (fun c => !isTermChar c)
  if body.length = 0 then none
  else
    let terms := (s.drop body.length).takeWhile isTermChar
    if terms.length = 0 then none
    else
      let sentence := body ++ terms
      let repl :=
        if sentence.length > 100 then
          List.intercalate ".\n".toList (splitPhrases sentence)
        else sentence
      some (repl, sentence.length)

/-- The private `splitLongSentences` method. -/
def splitLongSentences (text : List Char) : List Char :=
  scanRepl sentenceFind 0 text

/-- The marker vocabulary of `addConversationalMarkers`. -/
def markers : List (List Char) :=
  (["you see", "basically", "actually", "right", "well"]).map String.toList

/-- JS `line.charAt(0).toLowerCase() + line.slice(1)`. -/
def lowerFirst : List Char → List Char
  | [] => []
  | c :: r => jsToLower c :: r

/-- Per-line loop of `addConversationalMarkers`; `k` counts the
`Math.random()` draws made so far, and `markers[Math.floor(Math.random()*5)]`
is modelled as `markers[rng k % 5]`. -/
def addConversationalMarkersGo (rng : Nat → Nat) (k : Nat) :
    List (List Char) → List (List Char)
  | [] => []
  | line :: rest =>
    if line.length > 50 then
      (markers.getD (rng k % 5) [] ++ ", ".toList ++ lowerFirst line) ::
        addConversationalMarkersGo rng (k + 1) rest
    else line :: addConversationalMarkersGo rng k rest

/-- The private `addConversationalMarkers` method: lines over 50 characters
get a randomly chosen conversational filler and a lower-cased first
letter. -/
def addConversationalMarkers (rng : Nat → Nat) (text : List Char) : List Char :=
  List.intercalate ['\n']
    (addConversationalMarkersGo rng 0 (splitOnCharGo '\n' [] text))

/-- The `textToVoiceBridge` pipeline: replace formal connectives, split
long sentences, add conversational markers. -/
def textToVoiceBridge (rng : Nat → Nat) (context : List Char) : List Char :=
  let bridged := scanRepl conn3Find 0 (scanRepl conn2Find 0 (scanRepl conn1Find 0 context))
  let bridged := splitLongSentences bridged
  addConversationalMarkers rng bridged

/-- The public `bridgeContext` method: identity on matching modalities,
otherwise one of the two directional pipelines.  The `rng` stream models
the `Math.random()` calls the text→voice path performs. -/
def bridgeContext (context : String) (sourceModality targetModality : Modality)
    (rng : Nat → Nat) : String :=
  if sourceModality = targetModality then context
  else if sourceModality = .voice ∧ targetModality = .text then
    (voiceToTextBridge context.toList).asString
  else if sourceModality = .text ∧ targetModality = .voice then
    (textToVoiceBridge rng context.toList).asString
  else context

end ContextBridge

namespace SessionStateManager

/-- Session state after a sequence of (message, modality, clock) turns, each
processed by the mutation block of `updateSession`. -/
def runTurns (s : SessionState) (turns : List (Message × Modality × Nat)) :
    SessionState :=
  turns.foldl (fun s t => updateSessionState s t.1 t.2.1 t.2.2) s

/-- Store after a sequence of `updateSession` calls for one session id. -/
def runUpdates (store : Store) (sessionId : String)
    (turns : List (Message × Modality × Nat)) : Store :=
  turns.foldl (fun st t => (updateSession st sessionId t.1 t.2.1 t.2.2).2) store

end SessionStateManager

/-- Sample memory item used by concrete instances (importance is the base
0.5 of a short questionless user message). -/
def itemAt (ts : Nat) : MemoryItem :=
  { id := "m", content := "c", importance := 0.5, timestamp := ts,
    tags := [], modality := .text }

/-- Sample session with two memory items stored in ascending-timestamp
order (so a descending re-sort changes the element order). -/
def sessTwo : SessionState :=
  { SessionStateManager.createSessionState "s1" none 0 with
      context := { SessionStateManager.createEmptyContext with
        memoryBank := [itemAt 1, itemAt 2] } }

/-- Sample store holding only `sessTwo`. -/
def storeTwo : SessionStateManager.Store :=
  fun j => if j = "s1" then some sessTwo else none

/-- Sample 50-item memory bank (timestamps 0..49, all importance 0.5). -/
def bank50 : List MemoryItem := (List.range 50).map itemAt

/-- Sample session whose memory bank is full. -/
def sess50 : SessionState :=
  { SessionStateManager.createSessionState "s" none 0 with
      context := { SessionStateManager.createEmptyContext with
        memoryBank := bank50 } }

/-- Sample text message (question mark, so importance 0.8). -/
def msgAt (ts : Nat) : Message :=
  { id := "q", role := .user, content := "why?", modality := .text,
    timestamp := ts }

namespace SessionStateManager

theorem cloneSession_eq (s : SessionState) : cloneSession s = s := by
  simp [cloneSession]

theorem memoryBank_updateSessionState (s : SessionState) (m : Message)
    (mod : Modality) (t : Nat) :
    (updateSessionState s m mod t).context.memoryBank =
      (if (s.context.memoryBank ++ [mkMemoryItem m]).length > 50 then
        (List.insertionSort memRel (s.context.memoryBank ++ [mkMemoryItem m])).take 50
       else s.context.memoryBank ++ [mkMemoryItem m]) := by
  by_cases h : s.currentModality = mod <;>
    simp [updateSessionState, h, updateContextFromMessage, addToMemoryBank,
      addFlowState]

theorem topic_updateSessionState (s : SessionState) (m : Message)
    (mod : Modality) (t : Nat) :
    (updateSessionState s m mod t).context.topic =
      (if topicFalsy s.context.topic then some (detectTopic m.content)
       else s.context.topic) := by
  by_cases h : s.currentModality = mod <;>
    simp [updateSessionState, h, updateContextFromMessage, addToMemoryBank,
      addFlowState]

theorem entities_updateSessionState (s : SessionState) (m : Message)
    (mod : Modality) (t : Nat) :
    (updateSessionState s m mod t).context.entities =
      (extractEntities m.content).foldl (fun cur e =>
        if cur.any (fun x => decide (x.name = e.name ∧ x.type = e.type)) then cur
        else cur ++ [{ e with source := m.modality }]) s.context.entities := by
  by_cases h : s.currentModality = mod <;>
    simp [updateSessionState, h, updateContextFromMessage, addToMemoryBank,
      addFlowState]

theorem switches_updateSessionState (s : SessionState) (m : Message)
    (mod : Modality) (t : Nat) :
    (updateSessionState s m mod t).metadata.modalitySwitches =
      s.metadata.modalitySwitches + (if s.currentModality ≠ mod then 1 else 0) := by
  by_cases h : s.currentModality = mod <;>
    simp [updateSessionState, h, updateContextFromMessage, addToMemoryBank,
      addFlowState]

theorem currentModality_updateSessionState (s : SessionState) (m : Message)
    (mod : Modality) (t : Nat) :
    (updateSessionState s m mod t).currentModality = mod := by
  by_cases h : s.currentModality = mod <;>
    simp [updateSessionState, h, updateContextFromMessage, addToMemoryBank,
      addFlowState]

theorem length_memoryBank_updateSessionState (s : SessionState) (m : Message)
    (mod : Modality) (t : Nat) :
    (updateSessionState s m mod t).context.memoryBank.length =
      min (s.context.memoryBank.length + 1) 50 := by
  rw [memoryBank_updateSessionState]
  split
  · rename_i h
    simp only [List.length_take, List.length_insertionSort]
    simp only [List.length_append, List.length_singleton] at h ⊢
    omega
  · rename_i h
    simp only [List.length_append, List.length_singleton] at h ⊢
    omega

/-- Top-`k` characterization of "sort, then take `k`": what is kept is a
permutation-part of the input, has length `min k n`, is sorted, and
dominates everything evicted. -/
theorem sortTake_topK {α : Type} (r : α → α → Prop) [DecidableRel r]
    [IsTotal α r] [IsTrans α r] (l : List α) (k : Nat) :
    ∃ rest, l.Perm ((List.insertionSort r l).take k ++ rest) ∧
      ((List.insertionSort r l).take k).length = min k l.length ∧
      List.Sorted r ((List.insertionSort r l).take k) ∧
      ∀ x ∈ (List.insertionSort r l).take k, ∀ y ∈ rest, r x y := by
  refine ⟨(List.insertionSort r l).drop k, ?_, ?_, ?_, ?_⟩
  · rw [List.take_append_drop]
    exact (List.perm_insertionSort r l).symm
  · rw [List.length_take, List.length_insertionSort]
  · exact List.Pairwise.sublist (List.take_sublist _ _)
      (List.sorted_insertionSort r l)
  · intro x hx y hy
    exact (List.sorted_insertionSort r l).rel_of_mem_take_of_mem_drop hx hy

end SessionStateManager

namespace SessionStateManager

theorem length_runTurns (turns : List (Message × Modality × Nat)) :
    ∀ s : SessionState, s.context.memoryBank.length ≤ 50 →
      (runTurns s turns).context.memoryBank.length =
        min (s.context.memoryBank.length + turns.length) 50 := by
  induction turns with
  | nil =>
    intro s h
    simp only [runTurns, List.foldl_nil, List.length_nil]
    omega
  | cons t ts ih =>
    intro s h
    have step := length_memoryBank_updateSessionState s t.1 t.2.1 t.2.2
    have hrw : runTurns s (t :: ts) =
        runTurns (updateSessionState s t.1 t.2.1 t.2.2) ts := by
      simp [runTurns]
    rw [hrw, ih _ (by rw [step]; omega), step]
    simp only [List.length_cons]
    omega

theorem runUpdates_lookup (sessionId : String)
    (turns : List (Message × Modality × Nat)) :
    ∀ (store : Store) (s : SessionState), store sessionId = some s →
      (runUpdates store sessionId turns) sessionId = some (runTurns s turns) := by
  induction turns with
  | nil =>
    intro store s h
    simpa [runUpdates, runTurns] using h
  | cons t ts ih =>
    intro store s h
    have hrw : runUpdates store sessionId (t :: ts) =
        runUpdates (updateSession store sessionId t.1 t.2.1 t.2.2).2 sessionId ts := by
      simp [runUpdates]
    have hupd : (updateSession store sessionId t.1 t.2.1 t.2.2).2 sessionId =
        some (updateSessionState s t.1 t.2.1 t.2.2) := by
      simp [updateSession, h, cloneSession_eq, setStore]
    rw [hrw, ih _ _ hupd]
    simp [runTurns]

end SessionStateManager

open SessionStateManager in
/-- C1: for every session and every sequence of N successful `updateSession`
calls, the memory bank holds exactly min(N, 50) items; whenever an insertion
makes the bank exceed 50 items, the 50 retained items are exactly a top-50
of the 51 candidates under the eviction order (importance descending, ties
by most-recent timestamp): they are a permutation-part of the candidates,
sorted by that order, and every retained item dominates every evicted
one. -/
theorem claim_C1_memory_bank_top50 :
    (∀ (store : Store) (sessionId : String) (userId : Option String)
       (t0 : Nat) (turns : List (Message × Modality × Nat)),
       store sessionId = none →
       ((runUpdates (createSession store sessionId userId t0).2 sessionId turns)
           sessionId).map (fun s => s.context.memoryBank.length) =
         some (min turns.length 50)) ∧
    (∀ (s : SessionState) (m : Message),
       s.context.memoryBank.length = 50 →
       ∃ rest,
         (s.context.memoryBank ++ [mkMemoryItem m]).Perm
           ((addToMemoryBank s m).context.memoryBank ++ rest) ∧
         (addToMemoryBank s m).context.memoryBank.length = 50 ∧
         List.Sorted memRel (addToMemoryBank s m).context.memoryBank ∧
         ∀ x ∈ (addToMemoryBank s m).context.memoryBank, ∀ y ∈ rest,
           memRel x y) := by
  constructor
  · intro store sessionId userId t0 turns hnone
    have h1 : (createSession store sessionId userId t0).2 sessionId =
        some (createSessionState sessionId userId t0) := by
      simp [createSession, hnone, setStore]
    rw [runUpdates_lookup _ _ _ _ h1]
    simp only [Option.map_some']
    rw [length_runTurns _ _ (by simp [createSessionState, createEmptyContext])]
    simp [createSessionState, createEmptyContext]
  · intro s m hlen
    have hcand : (s.context.memoryBank ++ [mkMemoryItem m]).length = 51 := by
      simp [hlen]
    have hbank : (addToMemoryBank s m).context.memoryBank =
        (List.insertionSort memRel (s.context.memoryBank ++ [mkMemoryItem m])).take 50 := by
      simp only [addToMemoryBank]
      rw [if_pos (by omega)]
    obtain ⟨rest, hperm, hlen', hsort, hdom⟩ :=
      sortTake_topK memRel (s.context.memoryBank ++ [mkMemoryItem m]) 50
    refine ⟨rest, ?_, ?_, ?_, ?_⟩
    · rw [hbank]; exact hperm
    · rw [hbank, hlen', hcand]; decide
    · rw [hbank]; exact hsort
    · rw [hbank]; exact hdom

open SessionStateManager in
/-- Witness for C1: two turns from a fresh session give bank length
min(2, 50); inserting into a full 50-item bank keeps a dominating top-50 of
the 51 candidates. -/
theorem claim_C1_memory_bank_top50_witness :
    ((fun _ => none : Store) "s" = none) ∧
    ((runUpdates (createSession (fun _ => none) "s" none 0).2 "s"
        [(msgAt 1, Modality.text, 1), (msgAt 2, Modality.text, 2)]) "s").map
      (fun s => s.context.memoryBank.length) = some (min 2 50) ∧
    sess50.context.memoryBank.length = 50 ∧
    (∃ rest,
      (sess50.context.memoryBank ++ [mkMemoryItem (msgAt 50)]).Perm
        ((addToMemoryBank sess50 (msgAt 50)).context.memoryBank ++ rest) ∧
      (addToMemoryBank sess50 (msgAt 50)).context.memoryBank.length = 50 ∧
      List.Sorted memRel (addToMemoryBank sess50 (msgAt 50)).context.memoryBank ∧
      ∀ x ∈ (addToMemoryBank sess50 (msgAt 50)).context.memoryBank,
        ∀ y ∈ rest, memRel x y) :=
  ⟨rfl,
   claim_C1_memory_bank_top50.1 (fun _ => none) "s" none 0
     [(msgAt 1, Modality.text, 1), (msgAt 2, Modality.text, 2)] rfl,
   by decide,
   claim_C1_memory_bank_top50.2 sess50 (msgAt 50) (by decide)⟩

namespace SessionStateManager

theorem detectTopic_ne_empty (content : String) : detectTopic content ≠ "" := by
  simp only [detectTopic]
  split
  · decide
  · split
    · decide
    · decide

theorem topic_updateSessionState_valid (s : SessionState) (m : Message)
    (mod : Modality) (t : Nat) :
    (updateSessionState s m mod t).context.topic ≠ some "" := by
  rw [topic_updateSessionState]
  split
  · intro h
    exact detectTopic_ne_empty m.content (Option.some_injective _ h)
  · rename_i hf
    cases htop : s.context.topic with
    | none => simp [topicFalsy, htop] at hf
    | some tp =>
      rw [htop] at hf
      simp [topicFalsy] at hf
      simpa using hf

theorem topic_runTurns_valid (turns : List (Message × Modality × Nat)) :
    ∀ s : SessionState, s.context.topic ≠ some "" →
      (runTurns s turns).context.topic ≠ some "" := by
  induction turns with
  | nil => intro s h; simpa [runTurns] using h
  | cons t ts ih =>
    intro s h
    have hrw : runTurns s (t :: ts) =
        runTurns (updateSessionState s t.1 t.2.1 t.2.2) ts := by simp [runTurns]
    rw [hrw]
    exact ih _ (topic_updateSessionState_valid s t.1 t.2.1 t.2.2)

theorem topic_runTurns_preserved (turns : List (Message × Modality × Nat)) :
    ∀ (s : SessionState) (tp : String), tp ≠ "" →
      s.context.topic = some tp →
      (runTurns s turns).context.topic = some tp := by
  induction turns with
  | nil => intro s tp _ h; simpa [runTurns] using h
  | cons t ts ih =>
    intro s tp hne h
    have hrw : runTurns s (t :: ts) =
        runTurns (updateSessionState s t.1 t.2.1 t.2.2) ts := by simp [runTurns]
    rw [hrw]
    apply ih _ _ hne
    rw [topic_updateSessionState]
    have hf : topicFalsy s.context.topic = false := by
      simp [topicFalsy, h, hne]
    rw [hf]
    simpa using h

end SessionStateManager

open SessionStateManager in
/-- C4: for every session created by `createSession` and every sequence of
successful `updateSession` calls, once `context.topic` holds a value it is
never changed by any later `updateSession` call. -/
theorem claim_C4_topic_write_once :
    ∀ (sessionId : String) (userId : Option String) (t0 : Nat)
      (turns1 turns2 : List (Message × Modality × Nat)) (tp : String),
      (runTurns (createSessionState sessionId userId t0) turns1).context.topic =
        some tp →
      (runTurns (runTurns (createSessionState sessionId userId t0) turns1)
          turns2).context.topic = some tp := by
  intro sessionId userId t0 turns1 turns2 tp h
  have hvalid : (runTurns (createSessionState sessionId userId t0)
      turns1).context.topic ≠ some "" :=
    topic_runTurns_valid turns1 _ (by simp [createSessionState, createEmptyContext])
  have hne : tp ≠ "" := by
    intro he
    rw [he] at h
    exact hvalid h
  exact topic_runTurns_preserved turns2 _ tp hne h

open SessionStateManager in
/-- Witness for C4: one turn with content "my order" sets the topic to
"order_management"; a later turn with content "my account" keeps it. -/
theorem claim_C4_topic_write_once_witness :
    (runTurns (createSessionState "s" none 0)
        [(⟨"m1", .user, "my order", .text, 1⟩, Modality.text, 1)]).context.topic =
      some "order_management" ∧
    (runTurns (runTurns (createSessionState "s" none 0)
        [(⟨"m1", .user, "my order", .text, 1⟩, Modality.text, 1)])
        [(⟨"m2", .user, "my account", .text, 2⟩, Modality.text, 2)]).context.topic =
      some "order_management" :=
  ⟨by decide,
   claim_C4_topic_write_once "s" none 0
     [(⟨"m1", .user, "my order", .text, 1⟩, Modality.text, 1)]
     [(⟨"m2", .user, "my account", .text, 2⟩, Modality.text, 2)]
     "order_management" (by decide)⟩

open SessionStateManager in
/-- C10: `detectTopic` is total with range {order_management,
account_management, general}, and the first successful `updateSession` on a
freshly created session always sets `context.topic` (defaulting to
"general"). -/
theorem claim_C10_topic_total :
    (∀ content : String,
       detectTopic content = "order_management" ∨
       detectTopic content = "account_management" ∨
       detectTopic content = "general") ∧
    (∀ (sessionId : String) (userId : Option String) (t0 : Nat)
       (m : Message) (mod : Modality) (t : Nat),
       (updateSessionState (createSessionState sessionId userId t0) m mod
           t).context.topic = some (detectTopic m.content)) := by
  constructor
  · intro content
    simp only [detectTopic]
    split
    · exact Or.inl rfl
    · split
      · exact Or.inr (Or.inl rfl)
      · exact Or.inr (Or.inr rfl)
  · intro sessionId userId t0 m mod t
    rw [topic_updateSessionState]
    simp [createSessionState, createEmptyContext, topicFalsy]

open SessionStateManager in
/-- C6: a turn increments `metadata.modalitySwitches` iff its modality
differs from the session's current modality; four turns
text→voice→text→voice on a text-modality session add exactly 3. -/
theorem claim_C6_modality_switches :
    (∀ (s : SessionState) (m : Message) (mod : Modality) (t : Nat),
       (updateSessionState s m mod t).metadata.modalitySwitches =
         s.metadata.modalitySwitches +
           (if mod = s.currentModality then 0 else 1)) ∧
    (∀ (s : SessionState) (m1 m2 m3 m4 : Message) (t1 t2 t3 t4 : Nat),
       s.currentModality = .text →
       (runTurns s [(m1, .text, t1), (m2, .voice, t2), (m3, .text, t3),
           (m4, .voice, t4)]).metadata.modalitySwitches =
         s.metadata.modalitySwitches + 3) := by
  constructor
  · intro s m mod t
    rw [switches_updateSessionState]
    by_cases h : s.currentModality = mod
    · simp [h]
    · rw [if_pos h, if_neg (fun he => h he.symm)]
  · intro s m1 m2 m3 m4 t1 t2 t3 t4 h
    simp only [runTurns, List.foldl_cons, List.foldl_nil]
    rw [switches_updateSessionState, currentModality_updateSessionState,
      switches_updateSessionState, currentModality_updateSessionState,
      switches_updateSessionState, currentModality_updateSessionState,
      switches_updateSessionState, h]
    simp

open SessionStateManager in
/-- Witness for C6: four alternating turns on a fresh (text) session leave
the switch counter at 3. -/
theorem claim_C6_modality_switches_witness :
    (createSessionState "s" none 0).currentModality = Modality.text ∧
    (runTurns (createSessionState "s" none 0)
        [(msgAt 1, Modality.text, 1), (msgAt 2, Modality.voice, 2),
         (msgAt 3, Modality.text, 3),
         (msgAt 4, Modality.voice, 4)]).metadata.modalitySwitches =
      (createSessionState "s" none 0).metadata.modalitySwitches + 3 :=
  ⟨rfl,
   claim_C6_modality_switches.2 (createSessionState "s" none 0)
     (msgAt 1) (msgAt 2) (msgAt 3) (msgAt 4) 1 2 3 4 rfl⟩

namespace SessionStateManager

theorem entities_foldl_ext (ents : List ExtractedEntity) (mod : Modality) :
    ∀ init : List ExtractedEntity, ∃ added,
      ents.foldl (fun cur e =>
        if cur.any (fun x => decide (x.name = e.name ∧ x.type = e.type)) then cur
        else cur ++ [{ e with source := mod }]) init = init ++ added := by
  induction ents with
  | nil => intro init; exact ⟨[], by simp⟩
  | cons e es ih =>
    intro init
    simp only [List.foldl_cons]
    split
    · exact ih init
    · obtain ⟨a, ha⟩ := ih (init ++ [{ e with source := mod }])
      exact ⟨{ e with source := mod } :: a, by simpa [List.append_assoc] using ha⟩

theorem entities_foldl_pairwise (ents : List ExtractedEntity) (mod : Modality) :
    ∀ init : List ExtractedEntity,
      init.Pairwise (fun a b => ¬(a.name = b.name ∧ a.type = b.type)) →
      (ents.foldl (fun cur e =>
        if cur.any (fun x => decide (x.name = e.name ∧ x.type = e.type)) then cur
        else cur ++ [{ e with source := mod }]) init).Pairwise
          (fun a b => ¬(a.name = b.name ∧ a.type = b.type)) := by
  induction ents with
  | nil => intro init h; simpa using h
  | cons e es ih =>
    intro init h
    simp only [List.foldl_cons]
    split
    · exact ih init h
    · rename_i hany
      have hany' : init.any
          (fun x => decide (x.name = e.name ∧ x.type = e.type)) = false := by
        revert hany
        cases init.any (fun x => decide (x.name = e.name ∧ x.type = e.type)) <;>
          simp
      apply ih
      rw [List.pairwise_append]
      refine ⟨h, by simp, ?_⟩
      intro x hx y hy
      rw [List.mem_singleton] at hy
      subst hy
      have := List.any_eq_false.mp hany' x hx
      simpa using this

end SessionStateManager

open SessionStateManager in
/-- C5: processing "a\@b.com" and then "also a\@b.com" leaves exactly one
entity (name "a\@b.com", type "email"); in general an `updateSession` call
only appends entities (existing ones are never updated), and it preserves
distinctness of the (name, type) pairs. -/
theorem claim_C5_entity_dedup :
    ((updateSessionState
        (updateSessionState (createSessionState "s1" none 0)
          ⟨"m1", .user, "a@b.com", .text, 1⟩ .text 1)
        ⟨"m2", .user, "also a@b.com", .text, 2⟩ .text 2).context.entities.map
          (fun e => (e.name, e.type, e.value, e.source)) =
      [("a@b.com", "email", "a@b.com", Modality.text)]) ∧
    (∀ (s : SessionState) (m : Message) (mod : Modality) (t : Nat),
      ∃ added, (updateSessionState s m mod t).context.entities =
        s.context.entities ++ added) ∧
    (∀ (s : SessionState) (m : Message) (mod : Modality) (t : Nat),
      s.context.entities.Pairwise
        (fun a b => ¬(a.name = b.name ∧ a.type = b.type)) →
      (updateSessionState s m mod t).context.entities.Pairwise
        (fun a b => ¬(a.name = b.name ∧ a.type = b.type))) := by
  refine ⟨by decide, ?_, ?_⟩
  · intro s m mod t
    rw [entities_updateSessionState]
    exact entities_foldl_ext (extractEntities m.content) m.modality
      s.context.entities
  · intro s m mod t h
    rw [entities_updateSessionState]
    exact entities_foldl_pairwise (extractEntities m.content) m.modality
      s.context.entities h

open SessionStateManager in
/-- Witness for C5: a fresh session has pairwise-distinct (empty) entities,
and one update keeps distinctness and only appends. -/
theorem claim_C5_entity_dedup_witness :
    (createSessionState "s1" none 0).context.entities.Pairwise
      (fun a b => ¬(a.name = b.name ∧ a.type = b.type)) ∧
    (∃ added, (updateSessionState (createSessionState "s1" none 0)
        ⟨"m1", .user, "a@b.com", .text, 1⟩ .text 1).context.entities =
      (createSessionState "s1" none 0).context.entities ++ added) ∧
    (updateSessionState (createSessionState "s1" none 0)
        ⟨"m1", .user, "a@b.com", .text, 1⟩ .text 1).context.entities.Pairwise
      (fun a b => ¬(a.name = b.name ∧ a.type = b.type)) :=
  ⟨by decide,
   claim_C5_entity_dedup.2.1 (createSessionState "s1" none 0)
     ⟨"m1", .user, "a@b.com", .text, 1⟩ .text 1,
   claim_C5_entity_dedup.2.2 (createSessionState "s1" none 0)
     ⟨"m1", .user, "a@b.com", .text, 1⟩ .text 1 (by decide)⟩

open SessionStateManager in
/-- C8: assuming the storage collaborator itself does not fail,
`updateSession` and `bridgeContextForModality` fail — with the
`Session <id> not found` error — exactly when the store has no session for
the id, and on that error the store is unchanged; `getConversationSummary`
on an absent id returns the empty string with the store unchanged. -/
theorem claim_C8_notfound_semantics :
    (∀ (store : Store) (sessionId : String) (m : Message) (mod : Modality)
       (t : Nat),
       ((updateSession store sessionId m mod t).1 =
           Except.error ("Session " ++ sessionId ++ " not found") ↔
          store sessionId = none) ∧
       (store sessionId = none →
          (updateSession store sessionId m mod t).2 = store)) ∧
    (∀ (store : Store) (sessionId : String) (target : Modality) (t : Nat),
       ((bridgeContextForModality store sessionId target t).1 =
           Except.error ("Session " ++ sessionId ++ " not found") ↔
          store sessionId = none) ∧
       (store sessionId = none →
          (bridgeContextForModality store sessionId target t).2 = store)) ∧
    (∀ (store : Store) (sessionId : String),
       store sessionId = none →
       getConversationSummary store sessionId = ("", store)) := by
  refine ⟨?_, ?_, ?_⟩
  · intro store sessionId m mod t
    constructor
    · cases h : store sessionId <;> simp [updateSession, h]
    · intro h
      simp [updateSession, h]
  · intro store sessionId target t
    constructor
    · cases h : store sessionId with
      | none => simp [bridgeContextForModality, h]
      | some s =>
        simp only [bridgeContextForModality, h]
        constructor
        · intro hc
          exfalso
          split at hc <;> simp_all
        · intro hc
          exact Option.noConfusion hc
    · intro h
      simp [bridgeContextForModality, h]
  · intro store sessionId h
    simp [getConversationSummary, h]

open SessionStateManager in
/-- Witness for C8 on the empty store: both operations report NotFound for
"s1", leave the store unchanged, and the summary is empty. -/
theorem claim_C8_notfound_semantics_witness :
    ((fun _ => none : Store) "s1" = none) ∧
    (updateSession (fun _ => none) "s1" (msgAt 1) .text 1).1 =
      Except.error ("Session " ++ "s1" ++ " not found") ∧
    (updateSession (fun _ => none) "s1" (msgAt 1) .text 1).2 =
      (fun _ => none : Store) ∧
    (bridgeContextForModality (fun _ => none) "s1" .voice 1).2 =
      (fun _ => none : Store) ∧
    getConversationSummary (fun _ => none) "s1" = ("", (fun _ => none : Store)) :=
  ⟨rfl,
   (claim_C8_notfound_semantics.1 (fun _ => none) "s1" (msgAt 1) .text 1).1.mpr rfl,
   (claim_C8_notfound_semantics.1 (fun _ => none) "s1" (msgAt 1) .text 1).2 rfl,
   (claim_C8_notfound_semantics.2.1 (fun _ => none) "s1" .voice 1).2 rfl,
   claim_C8_notfound_semantics.2.2 (fun _ => none) "s1" rfl⟩

open SessionStateManager in
/-- C7: when the session's current modality equals the requested target,
`bridgeContextForModality` returns the newline-joined contents of the 3
most-recent memory items (a dominating, descending-timestamp top-3 of the
bank) and performs no store write — in particular no "context_bridged" flow
entry is appended anywhere (the transient session object's flow is not
touched either). -/
theorem claim_C7_same_modality_bridge :
    ∀ (store : Store) (sessionId : String) (s : SessionState) (m : Modality)
      (now : Nat),
      store sessionId = some s → s.currentModality = m →
      ∃ top rest,
        (bridgeContextForModality store sessionId m now).1 =
          Except.ok (String.intercalate "\n" (top.map (fun mem => mem.content))) ∧
        (bridgeContextForModality store sessionId m now).2 = store ∧
        s.context.memoryBank.Perm (top ++ rest) ∧
        top.length = min 3 s.context.memoryBank.length ∧
        List.Sorted tsRel top ∧
        (∀ x ∈ top, ∀ y ∈ rest, tsRel x y) ∧
        (getRecentContext s 3).2.context.conversationFlow =
          s.context.conversationFlow := by
  intro store sessionId s m now hs hcur
  obtain ⟨rest, hperm, hlen, hsort, hdom⟩ :=
    sortTake_topK tsRel s.context.memoryBank 3
  refine ⟨(List.insertionSort tsRel s.context.memoryBank).take 3, rest,
    ?_, ?_, hperm, hlen, hsort, hdom, rfl⟩
  · simp [bridgeContextForModality, hs, cloneSession_eq, hcur, getRecentContext]
  · simp [bridgeContextForModality, hs, cloneSession_eq, hcur]

open SessionStateManager in
/-- Witness for C7 on a concrete store with a two-item text session. -/
theorem claim_C7_same_modality_bridge_witness :
    storeTwo "s1" = some sessTwo ∧
    sessTwo.currentModality = Modality.text ∧
    (∃ top rest,
      (bridgeContextForModality storeTwo "s1" Modality.text 7).1 =
        Except.ok (String.intercalate "\n" (top.map (fun mem => mem.content))) ∧
      (bridgeContextForModality storeTwo "s1" Modality.text 7).2 = storeTwo ∧
      sessTwo.context.memoryBank.Perm (top ++ rest) ∧
      top.length = min 3 sessTwo.context.memoryBank.length ∧
      List.Sorted tsRel top ∧
      (∀ x ∈ top, ∀ y ∈ rest, tsRel x y) ∧
      (getRecentContext sessTwo 3).2.context.conversationFlow =
        sessTwo.context.conversationFlow) :=
  ⟨rfl, rfl,
   claim_C7_same_modality_bridge storeTwo "s1" sessTwo Modality.text 7 rfl rfl⟩

open SessionStateManager in
/-- C9 counterexample: on a session whose bank holds two items in
ascending-timestamp order, both read-only queries leave the store — and so
the stored bank's element order — exactly as it was: `getSession` hands the
manager a deep clone, and the summary/same-modality paths never write, so
the in-place sort never becomes observable, contrary to the claim that the
bank's prior element order is not preserved. -/
theorem claim_C9_inplace_sort_cex :
    (List.insertionSort tsRel sessTwo.context.memoryBank).map
        (fun mem => mem.timestamp) = [2, 1] ∧
    sessTwo.context.memoryBank.map (fun mem => mem.timestamp) = [1, 2] ∧
    (getConversationSummary storeTwo "s1").2 = storeTwo ∧
    ((getConversationSummary storeTwo "s1").2 "s1").map
      (fun s => s.context.memoryBank.map (fun mem => mem.timestamp)) =
        some [1, 2] ∧
    (bridgeContextForModality storeTwo "s1" Modality.text 9).2 = storeTwo := by
  refine ⟨by decide, by decide, rfl, by decide, rfl⟩

open SessionStateManager in
/-- C9 amended: the queries do sort, in place, the memory bank of the
session object they fetched (descending timestamps), but
`MemoryStorageProvider.getSession` returns a deep clone and these query
paths never write to storage, so the stored session's element order is
preserved. -/
theorem claim_C9_inplace_sort_amended :
    (∀ s : SessionState,
       (summaryOfSession s).2.context.memoryBank =
         List.insertionSort tsRel s.context.memoryBank ∧
       List.Sorted tsRel (summaryOfSession s).2.context.memoryBank ∧
       (getRecentContext s 3).2.context.memoryBank =
         List.insertionSort tsRel s.context.memoryBank) ∧
    (∀ (store : Store) (sessionId : String),
       (getConversationSummary store sessionId).2 = store) ∧
    (∀ (store : Store) (sessionId : String) (s : SessionState)
       (m : Modality) (now : Nat),
       store sessionId = some s → s.currentModality = m →
       (bridgeContextForModality store sessionId m now).2 = store) := by
  refine ⟨?_, ?_, ?_⟩
  · intro s
    refine ⟨rfl, ?_, rfl⟩
    exact List.sorted_insertionSort tsRel _
  · intro store sessionId
    cases h : store sessionId <;> simp [getConversationSummary, h]
  · intro store sessionId s m now hs hcur
    simp [bridgeContextForModality, hs, cloneSession_eq, hcur]

open SessionStateManager in
/-- Witness for C9 amended at the concrete two-item store. -/
theorem claim_C9_inplace_sort_amended_witness :
    storeTwo "s1" = some sessTwo ∧
    sessTwo.currentModality = Modality.text ∧
    (bridgeContextForModality storeTwo "s1" Modality.text 3).2 = storeTwo :=
  ⟨rfl, rfl,
   claim_C9_inplace_sort_amended.2.2 storeTwo "s1" sessTwo Modality.text 3
     rfl rfl⟩

theorem sub_of_pref {α : Type} {l₁ l₂ : List α} (h : l₁ <+: l₂) : l₁ <:+: l₂ := by
  obtain ⟨t, ht⟩ := h
  exact ⟨[], t, by simpa using ht⟩

theorem sub_cons {α : Type} (a : α) {l t : List α} (h : l <:+: t) :
    l <:+: a :: t := by
  obtain ⟨u, v, huv⟩ := h
  exact ⟨a :: u, v, by simp [huv]⟩

theorem occursCI_of_tail {pat : String} {c : Char} {r : List Char}
    (h : occursCI pat r) : occursCI pat (c :: r) := by
  unfold occursCI lowerList at *
  simpa using sub_cons (jsToLower c) h

theorem matchCI_eq_true_iff (p : List Char) :
    ∀ s : List Char, matchCI p s = true ↔ p <+: lowerList s := by
  induction p with
  | nil => intro s; simp [matchCI, lowerList]
  | cons a as ih =>
    intro s
    cases s with
    | nil => simp [matchCI, lowerList]
    | cons c cs =>
      simp [matchCI, lowerList, ih, List.cons_prefix_cons]

theorem occursCI_of_matchCI {pat : String} {s : List Char}
    (h : matchCI pat.toList s = true) : occursCI pat s :=
  sub_of_pref ((matchCI_eq_true_iff pat.toList s).mp h)

namespace ContextBridge

theorem stripFillers_no_occurrence_id :
    ∀ s : List Char, ¬ occursCI "um" s → ¬ occursCI "uh" s →
      ¬ occursCI "like" s → ¬ occursCI "you know" s →
      stripFillers s = s := by
  intro s
  induction s with
  | nil => intro _ _ _ _; rfl
  | cons c r ih =>
    intro h1 h2 h3 h4
    have m1 : matchCI "um".toList (c :: r) = false := by
      cases hm : matchCI "um".toList (c :: r)
      · rfl
      · exact absurd (occursCI_of_matchCI hm) h1
    have m2 : matchCI "uh".toList (c :: r) = false := by
      cases hm : matchCI "uh".toList (c :: r)
      · rfl
      · exact absurd (occursCI_of_matchCI hm) h2
    have m3 : matchCI "like".toList (c :: r) = false := by
      cases hm : matchCI "like".toList (c :: r)
      · rfl
      · exact absurd (occursCI_of_matchCI hm) h3
    have m4 : matchCI "you know".toList (c :: r) = false := by
      cases hm : matchCI "you know".toList (c :: r)
      · rfl
      · exact absurd (occursCI_of_matchCI hm) h4
    have hfind : fillerFind (c :: r) = none := by
      unfold fillerFind
      simp only [m1, m2, m3, m4]
      simp
    show scanRepl fillerFind 0 (c :: r) = c :: r
    rw [scanRepl, hfind]
    exact congrArg (c :: ·)
      (ih (fun h => h1 (occursCI_of_tail h)) (fun h => h2 (occursCI_of_tail h))
        (fun h => h3 (occursCI_of_tail h)) (fun h => h4 (occursCI_of_tail h)))

end ContextBridge

/-- C2 counterexample: on a 60-character single-line context, the
text→voice path prepends a conversational marker chosen by `Math.random`,
so two invocations of `bridgeContext` with identical (context, source,
target) arguments produce different outputs when the random draws differ. -/
theorem claim_C2_bridge_deterministic_cex :
    ContextBridge.bridgeContext (String.mk (List.replicate 60 'a'))
        Modality.text Modality.voice (fun _ => 0) ≠
      ContextBridge.bridgeContext (String.mk (List.replicate 60 'a'))
        Modality.text Modality.voice (fun _ => 1) := by
  decide

/-- C2 amended: `bridgeContext` is a deterministic function of its three
arguments together with the stream of `Math.random` draws; whenever the
requested pair is not text→voice (the only path that draws), the output is
independent of the draws, so those paths are pure functions of the three
arguments. -/
theorem claim_C2_bridge_deterministic_amended :
    ∀ (context : String) (src tgt : Modality) (rng rng' : Nat → Nat),
      ¬(src = Modality.text ∧ tgt = Modality.voice) →
      ContextBridge.bridgeContext context src tgt rng =
        ContextBridge.bridgeContext context src tgt rng' := by
  intro context src tgt rng rng' h
  cases src <;> cases tgt
  · rfl
  · rfl
  · exact absurd ⟨rfl, rfl⟩ h
  · rfl

/-- Witness for C2 amended on the voice→text pair. -/
theorem claim_C2_bridge_deterministic_amended_witness :
    ¬(Modality.voice = Modality.text ∧ Modality.text = Modality.voice) ∧
    ContextBridge.bridgeContext "um hi" Modality.voice Modality.text
        (fun _ => 0) =
      ContextBridge.bridgeContext "um hi" Modality.voice Modality.text
        (fun _ => 1) :=
  ⟨by decide,
   claim_C2_bridge_deterministic_amended "um hi" Modality.voice Modality.text
     (fun _ => 0) (fun _ => 1) (by decide)⟩

/-- C3 counterexample: the single filler-removal pass deletes "like" from
"ulikem" and thereby glues the surviving "u" and "m" into a fresh "um",
which survives the whole voice→text pipeline: the output of the pipeline is
exactly "um". -/
theorem claim_C3_no_fillers_cex :
    ContextBridge.bridgeContext "ulikem" Modality.voice Modality.text
        (fun _ => 0) = "um" ∧
    occursCI "um" (ContextBridge.voiceToTextBridge "ulikem".toList) := by
  constructor
  · decide
  · decide

theorem char_ofNat_toNat {n : Nat} (h : n.isValidChar) :
    (Char.ofNat n).toNat = n := by
  simp only [Char.ofNat, dif_pos h, Char.ofNatAux, Char.toNat]
  simp [UInt32.ofNat', UInt32.toNat]

theorem jsToLower_idem (c : Char) : jsToLower (jsToLower c) = jsToLower c := by
  unfold jsToLower
  by_cases h : 65 ≤ c.toNat ∧ c.toNat ≤ 90
  · rw [if_pos h]
    have ht : (Char.ofNat (c.toNat + 32)).toNat = c.toNat + 32 :=
      char_ofNat_toNat (Or.inl (by omega))
    rw [if_neg (by rw [ht]; omega)]
  · rw [if_neg h, if_neg h]

theorem jsToLower_jsToUpper (c : Char) :
    jsToLower (jsToUpper c) = jsToLower c := by
  unfold jsToUpper
  by_cases h : 97 ≤ c.toNat ∧ c.toNat ≤ 122
  · rw [if_pos h]
    have ht : (Char.ofNat (c.toNat - 32)).toNat = c.toNat - 32 :=
      char_ofNat_toNat (Or.inl (by omega))
    unfold jsToLower
    rw [if_pos (by rw [ht]; omega), if_neg (by omega), ht]
    have : c.toNat - 32 + 32 = c.toNat := by omega
    rw [this, Char.ofNat_toNat]
  · rw [if_neg h]

theorem lowerList_idem (s : List Char) : lowerList (lowerList s) = lowerList s := by
  simp [lowerList, List.map_map, Function.comp_def, jsToLower_idem]

theorem lowerList_capitalize (w : List Char) :
    lowerList (ContextBridge.capitalizeWord w) = lowerList w := by
  cases w with
  | nil => rfl
  | cons c r => simp [ContextBridge.capitalizeWord, lowerList, jsToLower_jsToUpper]

theorem pair_sub_nil {α : Type} {a b : α} : ¬ ([a, b] <:+: ([] : List α)) := by
  rintro ⟨u, v, h⟩
  simp [List.append_eq_nil] at h

theorem pair_sub_cons {α : Type} {a b x : α} {t : List α}
    (h : [a, b] <:+: x :: t) :
    (a = x ∧ t.head? = some b) ∨ [a, b] <:+: t := by
  obtain ⟨u, v, huv⟩ := h
  cases u with
  | nil =>
    left
    simp only [List.nil_append, List.cons_append, List.cons.injEq] at huv
    exact ⟨huv.1, by rw [← huv.2]; simp⟩
  | cons y u' =>
    right
    simp only [List.cons_append, List.cons.injEq] at huv
    exact ⟨u', v, huv.2⟩

theorem sub_append_left {α : Type} {l x : List α} (y : List α)
    (h : l <:+: x) : l <:+: x ++ y := by
  obtain ⟨u, v, rfl⟩ := h
  exact ⟨u, v ++ y, by simp⟩

theorem sub_append_right {α : Type} {l y : List α} (x : List α)
    (h : l <:+: y) : l <:+: x ++ y := by
  obtain ⟨u, v, rfl⟩ := h
  exact ⟨x ++ u, v, by simp⟩

theorem sub_chain {α : Type} {l m n : List α} (h1 : l <:+: m) (h2 : m <:+: n) :
    l <:+: n := by
  obtain ⟨u, v, rfl⟩ := h1
  obtain ⟨w, z, rfl⟩ := h2
  exact ⟨w ++ u, v ++ z, by simp⟩

theorem pair_sub_mem {α : Type} {a b : α} {l : List α} (h : [a, b] <:+: l) :
    a ∈ l ∧ b ∈ l := by
  obtain ⟨u, v, rfl⟩ := h
  constructor <;> simp

theorem mem_of_headq {α : Type} {l : List α} {a : α} (h : l.head? = some a) :
    a ∈ l := by
  cases l <;> simp_all

theorem mem_of_lastq {α : Type} {l : List α} {a : α} (h : l.getLast? = some a) :
    a ∈ l := by
  induction l with
  | nil => simp at h
  | cons x t ih =>
    cases t with
    | nil => simp_all
    | cons y t' =>
      rw [List.getLast?_cons_cons] at h
      exact List.mem_cons_of_mem x (ih h)

theorem pair_sub_append {α : Type} {a b : α} :
    ∀ {x y : List α}, [a, b] <:+: x ++ y →
      [a, b] <:+: x ∨ [a, b] <:+: y ∨
        (x.getLast? = some a ∧ y.head? = some b) := by
  intro x
  induction x with
  | nil => intro y h; exact Or.inr (Or.inl (by simpa using h))
  | cons c x' ih =>
    intro y h
    rcases pair_sub_cons (by simpa using h) with ⟨ha, hb⟩ | htail
    · cases hx' : x' with
      | nil =>
        right; right
        subst hx'
        exact ⟨by simp [ha], by simpa using hb⟩
      | cons d x'' =>
        left
        subst hx'
        have hd : b = d := by
          have := hb
          simp at this
          exact this.symm
        exact ⟨[], x'', by simp [ha, hd]⟩
    · rcases ih htail with h1 | h2 | h3
      · left; exact sub_cons c h1
      · right; left; exact h2
      · right; right
        refine ⟨?_, h3.2⟩
        cases x' with
        | nil => simp at h3
        | cons e x'' => simpa using h3.1

theorem intercalate_cc {α : Type} (sep x y : List α) (t : List (List α)) :
    List.intercalate sep (x :: y :: t) =
      x ++ sep ++ List.intercalate sep (y :: t) := by
  simp [List.intercalate, List.intersperse_cons_cons]

theorem pair_sub_intercalate {a b : Char} {sep : List Char} (hsep : sep ≠ []) :
    ∀ pieces : List (List Char), [a, b] <:+: List.intercalate sep pieces →
      (∃ p ∈ pieces, [a, b] <:+: p) ∨ a ∈ sep ∨ b ∈ sep := by
  intro pieces
  induction pieces with
  | nil =>
    intro h
    rw [show List.intercalate sep [] = [] by simp [List.intercalate]] at h
    exact absurd h pair_sub_nil
  | cons p ps ih =>
    cases ps with
    | nil =>
      intro h
      rw [show List.intercalate sep [p] = p by simp [List.intercalate]] at h
      exact Or.inl ⟨p, by simp, h⟩
    | cons q ps' =>
      intro h
      rw [intercalate_cc, List.append_assoc] at h
      rcases pair_sub_append h with h1 | h2 | h3
      · exact Or.inl ⟨p, by simp, h1⟩
      · rcases pair_sub_append h2 with h2a | h2b | h2c
        · exact Or.inr (Or.inl (pair_sub_mem h2a).1)
        · rcases ih h2b with ⟨r, hr, hrr⟩ | hmem
          · exact Or.inl ⟨r, List.mem_cons_of_mem p hr, hrr⟩
          · exact Or.inr hmem
        · exact Or.inr (Or.inl (mem_of_lastq h2c.1))
      · refine Or.inr (Or.inr ?_)
        have hh := h3.2
        cases sep with
        | nil => exact absurd rfl hsep
        | cons s0 sep' =>
          simp at hh
          simp [hh]

theorem lower_not_letter {x : Char} (h1 : ¬(65 ≤ x.toNat ∧ x.toNat ≤ 90))
    (h2 : ¬(97 ≤ x.toNat ∧ x.toNat ≤ 122)) :
    ¬('a' ≤ jsToLower x ∧ jsToLower x ≤ 'z') := by
  unfold jsToLower
  rw [if_neg h1]
  intro hc
  exact h2 ⟨hc.1, hc.2⟩

theorem termChar_lower_not_letter {x : Char} (h : isTermChar x = true) :
    ¬('a' ≤ jsToLower x ∧ jsToLower x ≤ 'z') := by
  simp [isTermChar] at h
  rcases h with rfl | rfl | rfl <;> decide

theorem wsChar_lower_not_letter {x : Char} (h : isWsChar x = true) :
    ¬('a' ≤ jsToLower x ∧ jsToLower x ≤ 'z') := by
  simp [isWsChar] at h
  rcases h with rfl | rfl | rfl | rfl | rfl | rfl <;> decide

theorem digitChar_lower_not_letter {x : Char} (h : isDigitChar x = true) :
    ¬('a' ≤ jsToLower x ∧ jsToLower x ≤ 'z') := by
  simp [isDigitChar] at h
  have h' : 48 ≤ x.toNat ∧ x.toNat ≤ 57 := h
  exact lower_not_letter (by omega) (by omega)

theorem sub_map {α β : Type} (f : α → β) {l t : List α} (h : l <:+: t) :
    l.map f <:+: t.map f := by
  obtain ⟨u, v, rfl⟩ := h
  exact ⟨u.map f, v.map f, by simp⟩

theorem pair_lower_collapse {a b : Char} (ha : 'a' ≤ a ∧ a ≤ 'z')
    (hb : 'a' ≤ b ∧ b ≤ 'z') :
    ∀ (s : List Char) (w : Bool),
      [a, b] <:+: lowerList (ContextBridge.collapseWsGo w s) →
      [a, b] <:+: lowerList s := by
  intro s
  induction s with
  | nil =>
    intro w h
    simp [ContextBridge.collapseWsGo, lowerList] at h
  | cons c r ih =>
    intro w h
    have hlift : [a, b] <:+: lowerList r → [a, b] <:+: lowerList (c :: r) := by
      intro hh
      simpa [lowerList] using sub_cons (jsToLower c) hh
    by_cases hws : isWsChar c
    · cases w with
      | true =>
        rw [show ContextBridge.collapseWsGo true (c :: r) =
            ContextBridge.collapseWsGo true r from by
          rw [ContextBridge.collapseWsGo]; simp [hws]] at h
        exact hlift (ih true h)
      | false =>
        rw [show ContextBridge.collapseWsGo false (c :: r) =
            ' ' :: ContextBridge.collapseWsGo true r from by
          rw [ContextBridge.collapseWsGo]; simp [hws]] at h
        rw [show lowerList (' ' :: ContextBridge.collapseWsGo true r) =
            ' ' :: lowerList (ContextBridge.collapseWsGo true r) from rfl] at h
        rcases pair_sub_cons h with ⟨hsp, _⟩ | ht
        · exact absurd ha (by rw [hsp]; decide)
        · exact hlift (ih true ht)
    · rw [show ContextBridge.collapseWsGo w (c :: r) =
          c :: ContextBridge.collapseWsGo false r from by
        rw [ContextBridge.collapseWsGo]; simp [hws]] at h
      rw [show lowerList (c :: ContextBridge.collapseWsGo false r) =
          jsToLower c :: lowerList (ContextBridge.collapseWsGo false r) from
        rfl] at h
      rcases pair_sub_cons h with ⟨hac, hhead⟩ | ht
      · cases r with
        | nil =>
          rw [show ContextBridge.collapseWsGo false ([] : List Char) = []
            from rfl] at hhead
          simp [lowerList] at hhead
        | cons d r' =>
          by_cases hwd : isWsChar d
          · rw [show ContextBridge.collapseWsGo false (d :: r') =
                ' ' :: ContextBridge.collapseWsGo true r' from by
              rw [ContextBridge.collapseWsGo]; simp [hwd]] at hhead
            have hb' : b = ' ' := by simpa [lowerList] using hhead.symm
            exact absurd hb (by rw [hb']; decide)
          · rw [show ContextBridge.collapseWsGo false (d :: r') =
                d :: ContextBridge.collapseWsGo false r' from by
              rw [ContextBridge.collapseWsGo]; simp [hwd]] at hhead
            have hb' : b = jsToLower d := by simpa [lowerList] using hhead.symm
            refine ⟨[], lowerList r', ?_⟩
            simp [lowerList, hac, hb']
      · exact hlift (ih false ht)

theorem dropWhile_sub {α : Type} (p : α → Bool) (l : List α) :
    l.dropWhile p <:+: l := by
  obtain ⟨u, hu⟩ := List.dropWhile_suffix (l := l) p
  exact ⟨u, [], by simp [hu]⟩

theorem trim_sub (s : List Char) : ContextBridge.trimWs s <:+: s := by
  unfold ContextBridge.trimWs
  have h2 : ∀ t : List Char,
      ((t.reverse.dropWhile isWsChar).reverse : List Char) <:+: t := by
    intro t
    obtain ⟨u, hu⟩ := List.dropWhile_suffix (l := t.reverse) isWsChar
    refine ⟨[], u.reverse, ?_⟩
    have ht : t = (t.reverse.dropWhile isWsChar).reverse ++ u.reverse := by
      conv_lhs => rw [← t.reverse_reverse, ← hu]
      simp
    simpa using ht.symm
  exact sub_chain (h2 (s.dropWhile isWsChar)) (dropWhile_sub _ _)

theorem pair_lower_trim {a b : Char} {s : List Char}
    (h : [a, b] <:+: lowerList (ContextBridge.trimWs s)) :
    [a, b] <:+: lowerList s :=
  sub_chain h (sub_map jsToLower (trim_sub s))

theorem lowerList_append (x y : List Char) :
    lowerList (x ++ y) = lowerList x ++ lowerList y := by
  simp [lowerList]

theorem splitRunsGo_piece_sub (isSep : Char → Bool) :
    ∀ (s : List Char) (w : Bool) (acc : List Char),
      ∀ p ∈ ContextBridge.splitRunsGo isSep w acc s, p <:+: acc.reverse ++ s := by
  intro s
  induction s with
  | nil =>
    intro w acc p hp
    rw [ContextBridge.splitRunsGo] at hp
    simp at hp
    exact ⟨[], [], by simp [hp]⟩
  | cons c r ih =>
    intro w acc p hp
    have hsufr : (r : List Char) <:+: acc.reverse ++ (c :: r) :=
      ⟨acc.reverse ++ [c], [], by simp⟩
    rw [ContextBridge.splitRunsGo] at hp
    by_cases hsep : isSep c
    · rw [if_pos hsep] at hp
      cases w with
      | true =>
        rw [if_pos rfl] at hp
        exact sub_chain (by simpa using ih true [] p hp) hsufr
      | false =>
        rw [if_neg Bool.false_ne_true] at hp
        rcases List.mem_cons.mp hp with rfl | hp'
        · exact ⟨[], c :: r, by simp⟩
        · exact sub_chain (by simpa using ih true [] p hp') hsufr
    · rw [if_neg hsep] at hp
      have := ih false (c :: acc) p hp
      simpa [List.append_assoc] using this

theorem splitRuns_piece_sub {isSep : Char → Bool} {s p : List Char}
    (hp : p ∈ ContextBridge.splitRuns isSep s) : p <:+: s := by
  simpa using splitRunsGo_piece_sub isSep s false [] p hp

theorem keyword_sub {t k : List Char}
    (hk : k ∈ ContextBridge.extractKeywords t) : k <:+: lowerList t := by
  unfold ContextBridge.extractKeywords at hk
  rw [List.mem_filter] at hk
  rw [List.mem_filter] at hk
  exact splitRuns_piece_sub hk.1.1

theorem pair_lower_keyword {a b : Char} {t k : List Char}
    (hk : k ∈ ContextBridge.extractKeywords t)
    (h : [a, b] <:+: lowerList k) : [a, b] <:+: lowerList t := by
  have h1 : lowerList k <:+: lowerList (lowerList t) :=
    sub_map jsToLower (keyword_sub hk)
  rw [lowerList_idem] at h1
  exact sub_chain h h1

theorem lower_intercalate (sep : List Char) :
    ∀ ps : List (List Char),
      lowerList (List.intercalate sep ps) =
        List.intercalate (lowerList sep) (ps.map lowerList) := by
  intro ps
  induction ps with
  | nil => simp [List.intercalate, lowerList]
  | cons p ps ih =>
    cases ps with
    | nil => simp [List.intercalate, lowerList]
    | cons q ps' =>
      rw [intercalate_cc, lowerList_append, lowerList_append, ih,
        show List.map lowerList (q :: ps') =
          lowerList q :: List.map lowerList ps' from rfl,
        show List.map lowerList (p :: q :: ps') =
          lowerList p :: lowerList q :: List.map lowerList ps' from rfl,
        intercalate_cc]

theorem pair_lower_join {a b : Char} (ha : 'a' ≤ a ∧ a ≤ 'z')
    (hb : 'a' ≤ b ∧ b ≤ 'z') {sep : List Char} (hsep : sep ≠ [])
    (hsepc : ∀ x ∈ lowerList sep, ¬('a' ≤ x ∧ x ≤ 'z'))
    {ps : List (List Char)} (hps : ∀ p ∈ ps, ¬ [a, b] <:+: lowerList p) :
    ¬ [a, b] <:+: lowerList (List.intercalate sep ps) := by
  intro h
  rw [lower_intercalate] at h
  have hsep' : lowerList sep ≠ [] := by
    simpa [lowerList] using hsep
  rcases pair_sub_intercalate hsep' _ h with ⟨p, hp, hpp⟩ | ha' | hb'
  · obtain ⟨q, hq, rfl⟩ := List.mem_map.mp hp
    exact hps q hq hpp
  · exact hsepc a ha' ha
  · exact hsepc b hb' hb

theorem pair_lower_heading {a b : Char} (ha : 'a' ≤ a ∧ a ≤ 'z')
    (hb : 'a' ≤ b ∧ b ≤ 'z') {t : List Char}
    (hsafe : ¬ [a, b] <:+: lowerList t) :
    ¬ [a, b] <:+: lowerList
      (ContextBridge.generateTopicHeading (ContextBridge.extractKeywords t)) := by
  unfold ContextBridge.generateTopicHeading
  apply pair_lower_join ha hb (by decide)
  · intro x hx
    have : x = ' ' := by simpa [lowerList] using hx
    rw [this]; decide
  · intro p hp
    obtain ⟨k, hk, rfl⟩ := List.mem_map.mp hp
    rw [lowerList_capitalize]
    intro hpp
    exact hsafe (pair_lower_keyword (List.mem_of_mem_take hk) hpp)

theorem lastq_append_of_ne_nil {α : Type} (x : List α) {y : List α}
    (hy : y ≠ []) : (x ++ y).getLast? = y.getLast? :=
  List.getLast?_append_of_ne_nil x hy

theorem pair_lower_block {a b : Char} (ha : 'a' ≤ a ∧ a ≤ 'z')
    (hb : 'a' ≤ b ∧ b ≤ 'z') {hd ct : List Char}
    (hh : ¬ [a, b] <:+: lowerList hd) (hc : ¬ [a, b] <:+: lowerList ct) :
    ¬ [a, b] <:+: lowerList (hd ++ ":\n".toList ++ ct) := by
  intro h
  rw [lowerList_append, lowerList_append] at h
  have hsep : lowerList ":\n".toList = [':', '\n'] := by decide
  rw [hsep] at h
  rcases pair_sub_append h with h1 | h2 | h3
  · rcases pair_sub_append h1 with h1a | h1b | h1c
    · exact hh h1a
    · have := (pair_sub_mem h1b).1
      simp at this
      rcases this with rfl | rfl <;> exact absurd ha (by decide)
    · have hbv : ':' = b := by simpa using h1c.2
      exact absurd hb (by rw [← hbv]; decide)
  · exact hc h2
  · have hav : '\n' = a := by
      have := h3.1
      rw [lastq_append_of_ne_nil _ (by decide)] at this
      simpa using this
    exact absurd ha (by rw [← hav]; decide)

theorem dotspace_sep_not_letter :
    ∀ x ∈ lowerList ". ".toList, ¬('a' ≤ x ∧ x ≤ 'z') := by
  intro x hx
  have hx' : x = '.' ∨ x = ' ' := by simpa [lowerList] using hx
  rcases hx' with rfl | rfl <;> decide


theorem detectTopicsStep_safe {a b : Char} (ha : 'a' ≤ a ∧ a ≤ 'z')
    (hb : 'a' ≤ b ∧ b ≤ 'z')
    (st : List ContextBridge.TopicBlock × List Char × List (List Char))
    (sentence : List Char) (hsent : ¬ [a, b] <:+: lowerList sentence)
    (h1 : ∀ tb ∈ st.1, ¬ [a, b] <:+: lowerList tb.heading ∧
      ¬ [a, b] <:+: lowerList tb.content)
    (h2 : ¬ [a, b] <:+: lowerList st.2.1)
    (h3 : ∀ p ∈ st.2.2, ¬ [a, b] <:+: lowerList p) :
    (∀ tb ∈ (ContextBridge.detectTopicsStep st sentence).1,
      ¬ [a, b] <:+: lowerList tb.heading ∧
      ¬ [a, b] <:+: lowerList tb.content) ∧
    (¬ [a, b] <:+: lowerList (ContextBridge.detectTopicsStep st sentence).2.1) ∧
    (∀ p ∈ (ContextBridge.detectTopicsStep st sentence).2.2,
      ¬ [a, b] <:+: lowerList p) := by
  by_cases hnew : ContextBridge.isNewTopic
      (ContextBridge.extractKeywords sentence) st.2.1 = true
  · have heq : ContextBridge.detectTopicsStep st sentence =
        ((if st.2.1.isEmpty then st.1
          else st.1 ++ [⟨st.2.1, List.intercalate ". ".toList st.2.2⟩]),
         ContextBridge.generateTopicHeading
           (ContextBridge.extractKeywords sentence), [sentence]) := by
      unfold ContextBridge.detectTopicsStep
      rw [if_pos hnew]
    rw [heq]
    refine ⟨?_, pair_lower_heading ha hb hsent, ?_⟩
    · intro tb htb
      by_cases hemp : st.2.1.isEmpty
      · rw [if_pos hemp] at htb
        exact h1 tb htb
      · rw [if_neg hemp] at htb
        rcases List.mem_append.mp htb with hmem | hmem
        · exact h1 tb hmem
        · rw [List.mem_singleton] at hmem
          subst hmem
          exact ⟨h2, pair_lower_join ha hb (by decide) dotspace_sep_not_letter h3⟩
    · intro p hp
      rw [List.mem_singleton] at hp
      subst hp
      exact hsent
  · have heq : ContextBridge.detectTopicsStep st sentence =
        (st.1, st.2.1, st.2.2 ++ [sentence]) := by
      unfold ContextBridge.detectTopicsStep
      rw [if_neg hnew]
    rw [heq]
    refine ⟨h1, h2, ?_⟩
    intro p hp
    rcases List.mem_append.mp hp with hmem | hmem
    · exact h3 p hmem
    · rw [List.mem_singleton] at hmem
      subst hmem
      exact hsent

theorem detectTopics_fold_safe {a b : Char} (ha : 'a' ≤ a ∧ a ≤ 'z')
    (hb : 'a' ≤ b ∧ b ≤ 'z') :
    ∀ (sents : List (List Char))
      (st : List ContextBridge.TopicBlock × List Char × List (List Char)),
      (∀ p ∈ sents, ¬ [a, b] <:+: lowerList p) →
      (∀ tb ∈ st.1, ¬ [a, b] <:+: lowerList tb.heading ∧
        ¬ [a, b] <:+: lowerList tb.content) →
      (¬ [a, b] <:+: lowerList st.2.1) →
      (∀ p ∈ st.2.2, ¬ [a, b] <:+: lowerList p) →
      (∀ tb ∈ (sents.foldl ContextBridge.detectTopicsStep st).1,
        ¬ [a, b] <:+: lowerList tb.heading ∧
        ¬ [a, b] <:+: lowerList tb.content) ∧
      (¬ [a, b] <:+: lowerList
        (sents.foldl ContextBridge.detectTopicsStep st).2.1) ∧
      (∀ p ∈ (sents.foldl ContextBridge.detectTopicsStep st).2.2,
        ¬ [a, b] <:+: lowerList p) := by
  intro sents
  induction sents with
  | nil => intro st _ h1 h2 h3; exact ⟨h1, h2, h3⟩
  | cons sent rest ih =>
    intro st hsents h1 h2 h3
    obtain ⟨g1, g2, g3⟩ := detectTopicsStep_safe ha hb st sent
      (hsents sent (by simp)) h1 h2 h3
    exact ih _ (fun p hp => hsents p (List.mem_cons_of_mem _ hp)) g1 g2 g3

theorem detectTopics_safe {a b : Char} (ha : 'a' ≤ a ∧ a ≤ 'z')
    (hb : 'a' ≤ b ∧ b ≤ 'z') {text : List Char}
    (hsafe : ¬ [a, b] <:+: lowerList text) :
    ∀ tb ∈ ContextBridge.detectTopics text,
      ¬ [a, b] <:+: lowerList tb.heading ∧
      ¬ [a, b] <:+: lowerList tb.content := by
  have hsents : ∀ p ∈ ContextBridge.splitRuns isTermChar text,
      ¬ [a, b] <:+: lowerList p := by
    intro p hp hcon
    exact hsafe (sub_chain hcon (sub_map jsToLower (splitRuns_piece_sub hp)))
  have hnil : ¬ [a, b] <:+: lowerList
      (([] : List ContextBridge.TopicBlock), ([] : List Char),
        ([] : List (List Char))).2.1 := pair_sub_nil
  obtain ⟨H1, H2, H3⟩ := detectTopics_fold_safe ha hb
    (ContextBridge.splitRuns isTermChar text) ([], [], []) hsents
    (by intro tb htb; simp at htb) hnil
    (by intro p hp; simp at hp)
  intro tb htb
  unfold ContextBridge.detectTopics at htb
  simp only at htb
  by_cases hemp : ((ContextBridge.splitRuns isTermChar text).foldl
      ContextBridge.detectTopicsStep ([], [], [])).2.1.isEmpty
  · rw [if_pos hemp] at htb
    exact H1 tb htb
  · rw [if_neg hemp] at htb
    rcases List.mem_append.mp htb with hmem | hmem
    · exact H1 tb hmem
    · rw [List.mem_singleton] at hmem
      subst hmem
      exact ⟨H2, pair_lower_join ha hb (by decide) dotspace_sep_not_letter H3⟩

theorem restructure_safe {a b : Char} (ha : 'a' ≤ a ∧ a ≤ 'z')
    (hb : 'a' ≤ b ∧ b ≤ 'z') {text : List Char}
    (hsafe : ¬ [a, b] <:+: lowerList text) :
    ¬ [a, b] <:+: lowerList (List.intercalate "\n\n".toList
      ((ContextBridge.detectTopics text).map
        (fun t => t.heading ++ ":\n".toList ++ t.content))) := by
  apply pair_lower_join ha hb (by decide)
  · intro x hx
    have hx' : x = '\n' ∨ x = '\n' := by simpa [lowerList] using hx
    rcases hx' with rfl | rfl <;> decide
  · intro p hp
    obtain ⟨tb, htb, rfl⟩ := List.mem_map.mp hp
    obtain ⟨hh, hc⟩ := detectTopics_safe ha hb hsafe tb htb
    exact pair_lower_block ha hb hh hc

theorem headq_lower (l : List Char) :
    (lowerList l).head? = l.head?.map jsToLower := by
  cases l <;> rfl

theorem listMarkerFind_some {s repl : List Char} {n : Nat}
    (hf : ContextBridge.listMarkerFind s = some (repl, n)) :
    ∃ terms m : List Char,
      repl = terms ++ "\n\n".toList ++ m ∧
      terms = s.takeWhile isTermChar ∧ terms.length ≠ 0 ∧
      (∀ x ∈ m, x = '-' ∨ x = '•' ∨ isDigitChar x = true ∨ x = '.') := by
  simp only [ContextBridge.listMarkerFind] at hf
  split at hf
  · exact absurd hf (by simp)
  · rename_i h0
    split at hf
    · exact absurd hf (by simp)
    · rename_i m hm
      rw [Option.some_inj, Prod.mk.injEq] at hf
      refine ⟨s.takeWhile isTermChar, m, hf.1.symm, rfl, h0, ?_⟩
      intro x hx
      split at hm
      · exact absurd hm (by simp)
      · rename_i c cs hc
        split at hm
        · rename_i hdash
          rw [Option.some_inj] at hm
          subst hm
          rw [List.mem_singleton] at hx
          subst hx
          rcases hdash with rfl | rfl
          · exact Or.inl rfl
          · exact Or.inr (Or.inl rfl)
        · split at hm
          · exact absurd hm (by simp)
          · split at hm
            · rename_i hdot
              rw [Option.some_inj] at hm
              subst hm
              rcases List.mem_append.mp hx with hxd | hxd
              · exact Or.inr (Or.inr (Or.inl (List.mem_takeWhile_imp hxd)))
              · rw [List.mem_singleton] at hxd
                subst hxd
                exact Or.inr (Or.inr (Or.inr rfl))
            · exact absurd hm (by simp)

theorem listMarkerFind_repl_no_letter {s repl : List Char} {n : Nat}
    (hf : ContextBridge.listMarkerFind s = some (repl, n)) :
    ∀ x ∈ lowerList repl, ¬('a' ≤ x ∧ x ≤ 'z') := by
  obtain ⟨terms, m, hrepl, hterms, _, hm⟩ := listMarkerFind_some hf
  intro x hx
  obtain ⟨y, hy, rfl⟩ := List.mem_map.mp hx
  subst hrepl
  rcases List.mem_append.mp hy with hy1 | hy2
  · rcases List.mem_append.mp hy1 with hyt | hyn
    · exact termChar_lower_not_letter
        (List.mem_takeWhile_imp (hterms ▸ hyt))
    · have : y = '\n' ∨ y = '\n' := by simpa using hyn
      rcases this with rfl | rfl <;> decide
  · rcases hm y hy2 with rfl | rfl | hd | rfl
    · decide
    · decide
    · exact digitChar_lower_not_letter hd
    · decide

theorem listMarkerFind_repl_headq {s repl : List Char} {n : Nat}
    (hf : ContextBridge.listMarkerFind s = some (repl, n)) :
    repl.head? = s.head? := by
  obtain ⟨terms, m, hrepl, hterms, hne, _⟩ := listMarkerFind_some hf
  subst hrepl
  cases s with
  | nil => simp [List.takeWhile] at hterms; subst hterms; simp at hne
  | cons c s' =>
    rw [List.takeWhile] at hterms
    cases hc : isTermChar c with
    | true =>
      rw [hc] at hterms
      simp at hterms
      subst hterms
      rfl
    | false =>
      rw [hc] at hterms
      simp at hterms
      subst hterms
      simp at hne

theorem formatListsGo_headq (d : Char) (r' : List Char) :
    (scanRepl ContextBridge.listMarkerFind 0 (d :: r')).head? = some d := by
  rw [scanRepl]
  cases hf2 : ContextBridge.listMarkerFind (d :: r') with
  | none => rfl
  | some pr =>
    obtain ⟨repl, n⟩ := pr
    have hh := listMarkerFind_repl_headq hf2
    obtain ⟨terms, m, hrepl, hterms, hne, _⟩ := listMarkerFind_some hf2
    cases hr : repl with
    | nil =>
      subst hr
      simp at hh
    | cons e repl' =>
      rw [hr] at hh
      simp only [List.head?_cons, Option.some_inj] at hh
      simp [hh]

theorem pair_lower_formatLists {a b : Char} (ha : 'a' ≤ a ∧ a ≤ 'z')
    (_hb : 'a' ≤ b ∧ b ≤ 'z') :
    ∀ (s : List Char) (k : Nat),
      [a, b] <:+: lowerList (scanRepl ContextBridge.listMarkerFind k s) →
      [a, b] <:+: lowerList s := by
  intro s
  induction s with
  | nil =>
    intro k h
    cases k <;> simp [scanRepl, lowerList] at h
  | cons c r ih =>
    intro k h
    have hlift : [a, b] <:+: lowerList r → [a, b] <:+: lowerList (c :: r) :=
      fun hh => by simpa [lowerList] using sub_cons (jsToLower c) hh
    cases k with
    | succ k' =>
      rw [scanRepl] at h
      exact hlift (ih k' h)
    | zero =>
      rw [scanRepl] at h
      cases hf : ContextBridge.listMarkerFind (c :: r) with
      | none =>
        rw [hf] at h
        rw [show lowerList (c :: scanRepl ContextBridge.listMarkerFind 0 r) =
            jsToLower c :: lowerList (scanRepl ContextBridge.listMarkerFind 0 r)
          from rfl] at h
        rcases pair_sub_cons h with ⟨hac, hhead⟩ | ht
        · cases r with
          | nil => simp [scanRepl, lowerList] at hhead
          | cons d r' =>
            rw [headq_lower, formatListsGo_headq] at hhead
            have hbd : b = jsToLower d := by simpa using hhead.symm
            refine ⟨[], lowerList r', ?_⟩
            simp [lowerList, hac, hbd]
        · exact hlift (ih 0 ht)
      | some pr =>
        obtain ⟨repl, n⟩ := pr
        rw [hf] at h
        rw [lowerList_append] at h
        rcases pair_sub_append h with h1 | h2 | h3
        · exact absurd ha
            (listMarkerFind_repl_no_letter hf a (pair_sub_mem h1).1)
        · exact hlift (ih (n - 1) h2)
        · exact absurd ha
            (listMarkerFind_repl_no_letter hf a (mem_of_lastq h3.1))

theorem wrapFind_some {kw s repl : List Char} {n : Nat}
    (hf : ContextBridge.wrapFind kw s = some (repl, n)) :
    repl = "**".toList ++ s.take kw.length ++ "**".toList ∧ n = kw.length := by
  unfold ContextBridge.wrapFind at hf
  split at hf
  · rw [Option.some_inj, Prod.mk.injEq] at hf
    exact ⟨hf.1.symm, hf.2.symm⟩
  · exact absurd hf (by simp)

theorem wrapGo_headq (kw : List Char) (d : Char) (r' : List Char) :
    (scanRepl (ContextBridge.wrapFind kw) 0 (d :: r')).head? = some d ∨
    (scanRepl (ContextBridge.wrapFind kw) 0 (d :: r')).head? = some '*' := by
  rw [scanRepl]
  cases hf : ContextBridge.wrapFind kw (d :: r') with
  | none => exact Or.inl rfl
  | some pr =>
    obtain ⟨repl, n⟩ := pr
    obtain ⟨hrepl, _⟩ := wrapFind_some hf
    subst hrepl
    exact Or.inr rfl

theorem pair_lower_wrap {a b : Char} (ha : 'a' ≤ a ∧ a ≤ 'z')
    (hb : 'a' ≤ b ∧ b ≤ 'z') (kw : List Char) :
    ∀ (s : List Char) (k : Nat),
      [a, b] <:+: lowerList (scanRepl (ContextBridge.wrapFind kw) k s) →
      [a, b] <:+: lowerList s := by
  intro s
  induction s with
  | nil =>
    intro k h
    cases k <;> simp [scanRepl, lowerList] at h
  | cons c r ih =>
    intro k h
    have hlift : [a, b] <:+: lowerList r → [a, b] <:+: lowerList (c :: r) :=
      fun hh => by simpa [lowerList] using sub_cons (jsToLower c) hh
    cases k with
    | succ k' =>
      rw [scanRepl] at h
      exact hlift (ih k' h)
    | zero =>
      rw [scanRepl] at h
      cases hf : ContextBridge.wrapFind kw (c :: r) with
      | none =>
        rw [hf] at h
        rw [show lowerList (c :: scanRepl (ContextBridge.wrapFind kw) 0 r) =
            jsToLower c :: lowerList (scanRepl (ContextBridge.wrapFind kw) 0 r)
          from rfl] at h
        rcases pair_sub_cons h with ⟨hac, hhead⟩ | ht
        · cases r with
          | nil => simp [scanRepl, lowerList] at hhead
          | cons d r' =>
            rw [headq_lower] at hhead
            rcases wrapGo_headq kw d r' with hq | hq
            · rw [hq] at hhead
              have hbd : b = jsToLower d := by simpa using hhead.symm
              refine ⟨[], lowerList r', ?_⟩
              simp [lowerList, hac, hbd]
            · rw [hq] at hhead
              have hbd : b = '*' := by simpa using hhead.symm
              exact absurd hb (by rw [hbd]; decide)
        · exact hlift (ih 0 ht)
      | some pr =>
        obtain ⟨repl, n⟩ := pr
        obtain ⟨hrepl, hn⟩ := wrapFind_some hf
        subst hrepl
        rw [hf] at h
        rw [lowerList_append] at h
        rcases pair_sub_append h with h1 | h2 | h3
        · rw [lowerList_append, lowerList_append] at h1
          rcases pair_sub_append h1 with h1a | h1b | h1c
          · rcases pair_sub_append h1a with h2a | h2b | h2c
            · have := (pair_sub_mem h2a).1
              have ha' : a = '*' := by
                rcases (by simpa [lowerList] using this : a = '*' ∨ a = '*')
                  with rfl | rfl <;> rfl
              exact absurd ha (by rw [ha']; decide)
            · have hsub : [a, b] <:+: lowerList (c :: r) :=
                sub_chain h2b
                  (sub_map jsToLower (sub_of_pref (List.take_prefix _ _)))
              exact hsub
            · have ha' : '*' = a := by
                have := h2c.1
                rw [show lowerList "**".toList = ['*', '*'] from rfl] at this
                simpa using this
              exact absurd ha (by rw [← ha']; decide)
          · have := (pair_sub_mem h1b).1
            have ha' : a = '*' := by
              rcases (by simpa [lowerList] using this : a = '*' ∨ a = '*')
                with rfl | rfl <;> rfl
            exact absurd ha (by rw [ha']; decide)
          · have hb' : b = '*' := by
              have := h1c.2
              rw [show lowerList "**".toList = ['*', '*'] from rfl] at this
              simpa using this.symm
            exact absurd hb (by rw [hb']; decide)
        · exact hlift (ih (n - 1) h2)
        · have ha' : a = '*' := by
            have := h3.1
            rw [lowerList_append,
              lastq_append_of_ne_nil _ (by decide)] at this
            rw [show lowerList "**".toList = ['*', '*'] from rfl] at this
            simpa using this.symm
          exact absurd ha (by rw [ha']; decide)

theorem pair_lower_highlight {a b : Char} (ha : 'a' ≤ a ∧ a ≤ 'z')
    (hb : 'a' ≤ b ∧ b ≤ 'z') {s : List Char}
    (h : [a, b] <:+: lowerList (ContextBridge.highlightKeyPoints s)) :
    [a, b] <:+: lowerList s := by
  rw [show ContextBridge.highlightKeyPoints s =
      scanRepl (ContextBridge.wrapFind "essential".toList) 0
        (scanRepl (ContextBridge.wrapFind "critical".toList) 0
          (scanRepl (ContextBridge.wrapFind "must".toList) 0
            (scanRepl (ContextBridge.wrapFind "key".toList) 0
              (scanRepl (ContextBridge.wrapFind "important".toList) 0 s)))) from
    rfl] at h
  exact pair_lower_wrap ha hb _ _ _
    (pair_lower_wrap ha hb _ _ _
      (pair_lower_wrap ha hb _ _ _
        (pair_lower_wrap ha hb _ _ _
          (pair_lower_wrap ha hb _ _ _ h))))

theorem pair_lower_v2t {a b : Char} (ha : 'a' ≤ a ∧ a ≤ 'z')
    (hb : 'a' ≤ b ∧ b ≤ 'z') {s : List Char}
    (hstrip : ContextBridge.stripFillers s = s)
    (hsafe : ¬ [a, b] <:+: lowerList s) :
    ¬ [a, b] <:+: lowerList (ContextBridge.voiceToTextBridge s) := by
  intro h
  simp only [ContextBridge.voiceToTextBridge, hstrip] at h
  have hbsafe : ¬ [a, b] <:+:
      lowerList (ContextBridge.trimWs (ContextBridge.collapseWs s)) := by
    intro hc
    exact hsafe (pair_lower_collapse ha hb s false
      (pair_lower_trim (by simpa [ContextBridge.collapseWs] using hc)))
  have hmid : ¬ [a, b] <:+: lowerList
      (if (ContextBridge.detectTopics
          (ContextBridge.trimWs (ContextBridge.collapseWs s))).length > 1 then
        List.intercalate "\n\n".toList
          ((ContextBridge.detectTopics
            (ContextBridge.trimWs (ContextBridge.collapseWs s))).map
            (fun t => t.heading ++ ":\n".toList ++ t.content))
       else ContextBridge.trimWs (ContextBridge.collapseWs s)) := by
    split
    · exact restructure_safe ha hb hbsafe
    · exact hbsafe
  exact hmid (pair_lower_formatLists ha hb _ 0 (pair_lower_highlight ha hb h))

/-- C3 amended: the filler-removal stage is a single simultaneous
left-to-right pass; on inputs containing no case-insensitive occurrence of
any of the four fillers ("um", "uh", "like", "you know") it is the identity
and the voice→text pipeline output contains no case-insensitive "um" or
"uh".  In general deletions can glue surviving characters into new
occurrences (see the counterexample), so the unconditional claim fails. -/
theorem claim_C3_no_fillers_amended :
    ∀ s : List Char,
      ¬ occursCI "um" s → ¬ occursCI "uh" s → ¬ occursCI "like" s →
      ¬ occursCI "you know" s →
      ContextBridge.stripFillers s = s ∧
      ¬ occursCI "um" (ContextBridge.voiceToTextBridge s) ∧
      ¬ occursCI "uh" (ContextBridge.voiceToTextBridge s) := by
  intro s h1 h2 h3 h4
  have hstrip := ContextBridge.stripFillers_no_occurrence_id s h1 h2 h3 h4
  refine ⟨hstrip, ?_, ?_⟩
  · exact pair_lower_v2t (by decide) (by decide) hstrip h1
  · exact pair_lower_v2t (by decide) (by decide) hstrip h2

/-- Witness for C3 amended on a filler-free input. -/
theorem claim_C3_no_fillers_amended_witness :
    (¬ occursCI "um" "hello world".toList) ∧
    (¬ occursCI "uh" "hello world".toList) ∧
    (¬ occursCI "like" "hello world".toList) ∧
    (¬ occursCI "you know" "hello world".toList) ∧
    (ContextBridge.stripFillers "hello world".toList = "hello world".toList ∧
     ¬ occursCI "um" (ContextBridge.voiceToTextBridge "hello world".toList) ∧
     ¬ occursCI "uh" (ContextBridge.voiceToTextBridge "hello world".toList)) :=
  ⟨by decide, by decide, by decide, by decide,
   claim_C3_no_fillers_amended "hello world".toList (by decide) (by decide)
     (by decide) (by decide)⟩
